import Mathlib

/-!
Verification of `update.py` from the javascript-zoo repository: a shallow
embedding of its markdown-metadata parser and writer, its engine-data merge
pipeline, its benchmark-score summaries and its conformance scoring, with
theorems checking the specification's claims against the code.

Files are modelled as lists of lines; a line is a list of characters and
carries no newline (every physical line is taken to be LF-terminated).
-/

namespace JsZoo

abbrev Line := List Char

/-- Whitespace as Python's str.strip family sees it inside a single line
(the newline itself never occurs in a parsed line). -/
def pySpace (c : Char) : Bool := c = ' ' || c = '\t' || c = '\r' || c = '\x0b' || c = '\x0c'

/-- Python str.lstrip(). -/
def lstripL (s : Line) : Line := s.dropWhile pySpace

/-- Python str.rstrip(): drop the trailing whitespace run. -/
def rstripL : Line → Line
  | [] => []
  | c :: cs =>
    match rstripL cs with
    | [] => if pySpace c then [] else [c]
    | r => c :: r

/-- Python str.strip(). -/
def stripL (s : Line) : Line := lstripL (rstripL s)

/-- Python str.startswith. -/
def startsWithL (p s : Line) : Bool := p.isPrefixOf s

def findSubAux (pat : Line) : Line → Nat → Option Nat
  | [], i => if pat = [] then some i else none
  | c :: cs, i => if pat.isPrefixOf (c :: cs) then some i else findSubAux pat cs (i + 1)

/-- Index of the first occurrence of `pat` in `s` (Python str.find / str.index). -/
def findSub (pat s : Line) : Option Nat := findSubAux pat s 0

/-- Python `pat in s`. -/
def containsSub (pat s : Line) : Bool := (findSub pat s).isSome

/-- Python str.replace (all non-overlapping occurrences, left to right).
The scan fuel starts at the string length; each step consumes at least one
character of the input or ends the scan. -/
def replaceAllAux (pat repl : Line) : Nat → Line → Line
  | 0, s => s
  | _ + 1, [] => []
  | fuel + 1, c :: cs =>
    if pat ≠ [] ∧ pat.isPrefixOf (c :: cs) then
      repl ++ replaceAllAux pat repl fuel ((c :: cs).drop pat.length)
    else
      c :: replaceAllAux pat repl fuel cs

def replaceAllL (pat repl s : Line) : Line := replaceAllAux pat repl s.length s

/-!
A small backtracking regular-expression engine, used to embed the concrete
`re.sub` patterns of the source.  Matching enumerates the possible suffixes
in the engine's backtracking preference order (greedy repetitions try longer
matches first), so the head of the list is the match Python's `re` takes.
Recursion is fueled; every use supplies ample fuel for its concrete pattern.
-/

inductive RE where
  | eps
  | ch (c : Char)
  | cls (neg : Bool) (cs : List Char) (ranges : List (Char × Char))
  | dot
  | seq (a b : RE)
  | alt (a b : RE)
  | star (greedy : Bool) (a : RE)
  | grp (i : Nat) (a : RE)

/-- Sequence of a list of regexes. -/
def reSeqL (l : List RE) : RE := l.foldr RE.seq RE.eps

/-- Literal string as a regex. -/
def reStr (l : Line) : RE := reSeqL (l.map RE.ch)

/-- One-or-more repetition. -/
def rePlus (g : Bool) (a : RE) : RE := RE.seq a (RE.star g a)

/-- Zero-or-one repetition (greedy). -/
def reOpt (a : RE) : RE := RE.alt a RE.eps

abbrev Caps := List (Nat × Line)

def clsMember (cs : List Char) (ranges : List (Char × Char)) (x : Char) : Bool :=
  cs.contains x || ranges.any (fun p => decide (p.1 ≤ x) && decide (x ≤ p.2))

/-- All ways the regex can match a prefix of `s`: pairs of (remaining suffix,
captured groups), in backtracking preference order. -/
def reMatch : Nat → RE → Line → List (Line × Caps)
  | 0, _, _ => []
  | _ + 1, .eps, s => [(s, [])]
  | _ + 1, .ch c, s =>
    match s with
    | [] => []
    | x :: xs => if x = c then [(xs, [])] else []
  | _ + 1, .cls neg cs ranges, s =>
    match s with
    | [] => []
    | x :: xs =>
      if (if neg then !clsMember cs ranges x else clsMember cs ranges x) then [(xs, [])] else []
  | _ + 1, .dot, s =>
    match s with
    | [] => []
    | _ :: xs => [(xs, [])]
  | fuel + 1, .seq a b, s =>
    (reMatch fuel a s).flatMap
      (fun rc => (reMatch fuel b rc.1).map (fun rc2 => (rc2.1, rc.2 ++ rc2.2)))
  | fuel + 1, .alt a b, s => reMatch fuel a s ++ reMatch fuel b s
  | fuel + 1, .star g a, s =>
    let more :=
      (reMatch fuel a s).flatMap
        (fun rc =>
          if rc.1.length = s.length then []
          else (reMatch fuel (.star g a) rc.1).map (fun rc2 => (rc2.1, rc.2 ++ rc2.2)))
    if g then more ++ [(s, [])] else (s, []) :: more
  | fuel + 1, .grp i a, s =>
    (reMatch fuel a s).map
      (fun rc => (rc.1, (i, s.take (s.length - rc.1.length)) :: rc.2))

/-- The match Python's engine takes at this position, if any. -/
def reFirst (fuel : Nat) (r : RE) (s : Line) : Option (Line × Caps) :=
  (reMatch fuel r s).head?

/-- Replacement template element: literal text or a group backreference. -/
inductive Templ where
  | lit (l : Line)
  | ref (i : Nat)

def applyTempl (caps : Caps) : List Templ → Line
  | [] => []
  | .lit l :: ts => l ++ applyTempl caps ts
  | .ref i :: ts => (((caps.find? (fun p => p.1 = i)).map (fun p => p.2)).getD []) ++ applyTempl caps ts

/-- Generous fuel for matching a hand-written pattern against `s`. -/
def reFuel (s : Line) : Nat := 64 * (s.length + 2)

def reSubScan (r : RE) (t : List Templ) : Nat → Line → Line
  | 0, s => s
  | fuel + 1, s =>
    match reFirst (reFuel s) r s with
    | some (rest, caps) =>
      if rest.length < s.length then
        applyTempl caps t ++ reSubScan r t fuel rest
      else
        -- a zero-width match; none of the embedded patterns can produce one
        match s with
        | [] => applyTempl caps t
        | c :: cs => applyTempl caps t ++ c :: reSubScan r t fuel cs
    | none =>
      match s with
      | [] => []
      | c :: cs => c :: reSubScan r t fuel cs

/-- Python re.sub over the whole string (unanchored pattern). -/
def reSub (r : RE) (t : List Templ) (s : Line) : Line := reSubScan r t (s.length + 1) s

/-- Python re.sub for a pattern anchored with a leading `^`: at most the one
leading match is replaced. -/
def reSubAnchored (r : RE) (t : List Templ) (s : Line) : Line :=
  match reFirst (reFuel s) r s with
  | some (rest, caps) => applyTempl caps t ++ rest
  | none => s

/-!
The source's string-normalization helpers (update.py lines 300-343), each a
direct transcription of its `re.sub` pattern.
-/

/-- Pattern of strip_markdown_links (line 301): backslash-bracket group. -/
def mdLinkRE : RE :=
  reSeqL [.ch '[', .grp 1 (rePlus true (.cls true [']'] [])), .ch ']',
          .ch '(', rePlus true (.cls true [')'] []), .ch ')']

/-- strip_markdown_links (lines 300-301). -/
def strip_markdown_links (text : Line) : Line := stripL (reSub mdLinkRE [Templ.ref 1] text)

/-- Pattern of strip_shields (line 304). -/
def shieldsRE : RE :=
  .grp 1 (reSeqL
    [.ch '<', .alt (reStr "div".data) (reStr "span".data),
     reStr " class=\"shields\">".data, .star false .dot,
     reStr "</".data, .alt (reStr "div".data) (reStr "span".data), .ch '>'])

/-- strip_shields (lines 303-304). -/
def strip_shields (text : Line) : Line := stripL (reSub shieldsRE [] text)

/-- Pattern of strip_html (line 307). -/
def htmlTagRE : RE := reSeqL [.ch '<', rePlus false (.cls true ['<'] []), .ch '>']

/-- strip_html (lines 306-307). -/
def strip_html (text : Line) : Line := stripL (reSub htmlTagRE [] text)

/-- Pattern of strip_brackets (line 310): a space run then a bracketed group
with no nested parentheses. -/
def bracketsRE : RE :=
  reSeqL [rePlus true (.ch ' '), .ch '(', rePlus true (.cls true ['(', ')'] []), .ch ')']

/-- strip_brackets (lines 309-310). -/
def strip_brackets (text : Line) : Line := stripL (reSub bracketsRE [Templ.lit " ".data] text)

/-- Pattern of strip_brackets2 (line 313): greedy to the last parenthesis. -/
def brackets2RE : RE :=
  reSeqL [rePlus true (.ch ' '), .ch '(', rePlus true .dot, .ch ')']

/-- strip_brackets2 (lines 312-313). -/
def strip_brackets2 (text : Line) : Line := stripL (reSub brackets2RE [Templ.lit " ".data] text)

/-- Character class of the license version fragments. -/
def verCls : RE := .cls false ['-', '.', '+'] [('0', '9')]

/-- simplify_license (lines 315-329), regex chain transcribed rule by rule
(the commented-out Apache rule of the source is omitted, as in the source). -/
def simplify_license (s0 : Line) : Line :=
  if s0 = [] then s0 else
  let s := stripL s0
  if s = [] then s else
  let s := reSub (reSeqL [reStr "BSD-".data, .grp 1 (.cls false [] [('0', '9')]),
                          reStr "-Clause".data, reOpt (.grp 2 (reStr "-Clear".data))])
                 [Templ.lit "BSD-".data, Templ.ref 1] s
  let s := reSub (reSeqL [.ch '-', .grp 1 (rePlus true (.cls false ['.'] [('0', '9')])),
                          reStr "-only".data])
                 [Templ.lit "-".data, Templ.ref 1] s
  let s := reSub (reSeqL [.ch '-', .grp 1 (rePlus true (.cls false ['.'] [('0', '9')])),
                          reStr "-or-later".data])
                 [Templ.lit "-".data, Templ.ref 1, Templ.lit "+".data] s
  let s := reSub (reSeqL [.star true (.ch ' '),
                          .grp 1 (.alt (reStr " OR".data) (.alt (reStr " AND".data) (reStr ",".data))),
                          .star true (.ch ' ')])
                 [Templ.lit "/".data] s
  let s := reSub (reSeqL [reStr " WITH".data, .star true (.cls true [',', '/'] [])]) [] s
  let s := reSub (reSeqL [reStr "Apache".data, .star true verCls, .ch '/',
                          reStr "LGPL".data, .star true verCls])
                 [Templ.lit "Apache/LGPL".data] s
  let s := reSub (reSeqL [reStr "Apache".data, .star true verCls, .ch '/', reStr "MIT".data])
                 [Templ.lit "Apache/MIT".data] s
  let s := reSub (reSeqL [reStr "MPL".data, .star true verCls, .ch '/', reStr "GPL".data,
                          .star true verCls, .ch '/', reStr "LGPL".data, .star true verCls])
                 [Templ.lit "MPL/GPL/LGPL".data] s
  let s := reSub (reSeqL [reStr "Artistic".data,
                          .star true (.cls false ['-', '.', '+'] [('0', '9'), ('A', 'Z'), ('a', 'z')]),
                          .ch '/', reStr "GPL".data, rePlus true verCls])
                 [Templ.lit "Artistic/GPL".data] s
  s

/-- Python int(text) on a stripped decimal literal (underscore separators,
non-decimal bases and surrogate digits are not exercised by the data model). -/
def pyParseInt (s : Line) : Option Int :=
  let t := stripL s
  match t with
  | [] => none
  | c :: cs =>
    let p : Int × Line := if c = '-' then (-1, cs) else if c = '+' then (1, cs) else (1, c :: cs)
    if p.2 ≠ [] ∧ p.2.all (fun d => d.isDigit) then
      some (p.1 * ((p.2.foldl (fun a d => a * 10 + (d.toNat - '0'.toNat)) 0 : Nat) : Int))
    else none

/-- Errors ending a run of the embedded code: a failed assert carrying its
message, or an uncaught Python exception (whose text is not modelled). -/
inductive ParseErr where
  | fatal (msg : Line)
  | orphan
  | valueError
  | typeError
  | indexError
  | keyError
deriving DecidableEq, Repr

/-- A value produced by a normalization chain: maybe_parse_int may turn the
string into an integer (update.py lines 331-335). -/
inductive SimpVal where
  | s (l : Line)
  | i (n : Int)
deriving DecidableEq, Repr

/-- Names of the normalization functions usable in METADATA_MAP chains. -/
inductive SFn where
  | stripHtml
  | stripMarkdownLinks
  | stripBrackets
  | stripBrackets2
  | maybeParseInt
  | simplifyLicense
deriving DecidableEq, Repr

def applySFn : SFn → Line → Except ParseErr SimpVal
  | .stripHtml, l => .ok (.s (strip_html l))
  | .stripMarkdownLinks, l => .ok (.s (strip_markdown_links l))
  | .stripBrackets, l => .ok (.s (strip_brackets l))
  | .stripBrackets2, l => .ok (.s (strip_brackets2 l))
  | .simplifyLicense, l => .ok (.s (simplify_license l))
  | .maybeParseInt, l =>
    if l = [] then .ok (.s l)
    else
      match pyParseInt l with
      | some n => .ok (.i n)
      | none => .error .valueError

/-- The simplification loop of update.py lines 477-481: each step strips the
current text and applies the next chain function; a non-string intermediate
value would fail the strip (never reached with the registry's chains). -/
def runSimplify : List SFn → SimpVal → Except ParseErr SimpVal
  | [], v => .ok v
  | f :: fs, v =>
    match v with
    | .s l =>
      match applySFn f (stripL l) with
      | .ok v2 => runSimplify fs v2
      | .error e => .error e
    | .i _ => .error .typeError

/-- MDMapping (update.py lines 345-349). -/
structure MDMapping where
  json_key : Line
  simplify : List SFn
  drop_detailed : Bool
deriving DecidableEq, Repr

/-- METADATA_MAP (update.py lines 373-413), in declaration order; the order
drives the writer's sort. -/
def METADATA_MAP : List (Line × MDMapping) :=
  [("Homepage".data, ⟨"homepage".data, [], false⟩),
   ("NPM".data, ⟨"npm".data, [], false⟩),
   ("Repository".data, ⟨"repository".data, [.stripHtml, .stripMarkdownLinks, .stripBrackets], false⟩),
   ("Branch".data, ⟨"branch".data, [.stripHtml, .stripMarkdownLinks, .stripBrackets], true⟩),
   ("GitHub".data, ⟨"github".data, [.stripHtml, .stripMarkdownLinks, .stripBrackets], false⟩),
   ("Sources".data, ⟨"sources".data, [], false⟩),
   ("LOC".data, ⟨"loc".data, [.stripBrackets2, .maybeParseInt], false⟩),
   ("Language".data, ⟨"language".data, [.stripBrackets], false⟩),
   ("License".data, ⟨"license".data, [.stripBrackets, .simplifyLicense], false⟩),
   ("Org".data, ⟨"org".data, [], false⟩),
   ("Standard".data, ⟨"standard".data, [.stripBrackets], false⟩),
   ("Years".data, ⟨"years".data, [], false⟩),
   ("Ancestor".data, ⟨"ancestors".data, [.stripMarkdownLinks, .stripBrackets], true⟩),
   ("Ancestors".data, ⟨"ancestors".data, [.stripMarkdownLinks, .stripBrackets], true⟩),
   ("Fork".data, ⟨"forks".data, [.stripMarkdownLinks, .stripBrackets], true⟩),
   ("Forks".data, ⟨"forks".data, [.stripMarkdownLinks, .stripBrackets], true⟩),
   ("Predecessor".data, ⟨"predecessors".data, [.stripMarkdownLinks, .stripBrackets], true⟩),
   ("Predecessors".data, ⟨"predecessors".data, [.stripMarkdownLinks, .stripBrackets], true⟩),
   ("Successor".data, ⟨"successors".data, [.stripMarkdownLinks, .stripBrackets], true⟩),
   ("Successors".data, ⟨"successors".data, [.stripMarkdownLinks, .stripBrackets], true⟩),
   ("Type".data, ⟨"type".data, [], false⟩),
   ("Features".data, ⟨"features".data, [], false⟩),
   ("Parser".data, ⟨"parser".data, [.stripMarkdownLinks, .stripBrackets], false⟩),
   ("Runtime platform".data, ⟨"platform".data, [.stripMarkdownLinks, .stripBrackets], false⟩),
   ("Interpreter".data, ⟨"interpreter".data, [.stripMarkdownLinks, .stripBrackets], false⟩),
   ("JIT".data, ⟨"jit".data, [], false⟩),
   ("GC".data, ⟨"gc".data, [.stripMarkdownLinks, .stripBrackets], false⟩),
   ("Regex engine".data, ⟨"regex".data, [.stripMarkdownLinks, .stripBrackets], false⟩),
   ("DLL".data, ⟨"dll".data, [], false⟩)]

/-!
The markdown metadata model (update.py lines 351-368) and the parser
(lines 418-483).  Python's mutation of shared item objects is rendered
functionally: an item is fully built before it is appended, and children are
appended into the root forest; the flat `metadata` list keeps the item as it
was when appended (its later-grown subtree lives in `tree`, the only place
the writer reads subtrees from).
-/

inductive MDItem where
  | mk (line_no : Nat) (text : Line) (indent : Nat) (tree : List MDItem)
       (map_key : Line) (mapping : Option MDMapping) (json_key : Option Line)
       (detailed_value : Option Line) (simplified_value : Option SimpVal)

def MDItem.line_no : MDItem → Nat
  | .mk v _ _ _ _ _ _ _ _ => v

def MDItem.text : MDItem → Line
  | .mk _ v _ _ _ _ _ _ _ => v

def MDItem.indent : MDItem → Nat
  | .mk _ _ v _ _ _ _ _ _ => v

def MDItem.tree : MDItem → List MDItem
  | .mk _ _ _ v _ _ _ _ _ => v

def MDItem.map_key : MDItem → Line
  | .mk _ _ _ _ v _ _ _ _ => v

def MDItem.mapping : MDItem → Option MDMapping
  | .mk _ _ _ _ _ v _ _ _ => v

def MDItem.json_key : MDItem → Option Line
  | .mk _ _ _ _ _ _ v _ _ => v

def MDItem.detailed_value : MDItem → Option Line
  | .mk _ _ _ _ _ _ _ v _ => v

def MDItem.simplified_value : MDItem → Option SimpVal
  | .mk _ _ _ _ _ _ _ _ v => v

/-- MDParse (update.py lines 351-356). -/
structure MDParse where
  title : Line
  summary : Line
  metadata : List MDItem
  tree : List MDItem

/-- An assert message of the form f-string `filename:no: line - tail`. -/
def locMsg (fname : Line) (no : Nat) (l : Line) (tl : Line) : Line :=
  fname ++ ":".data ++ (Nat.repr no).data ++ ": ".data ++ l ++ tl

/-- re.sub(': .*', '', text) of line 455: the pattern matches from the
leftmost ': ' to the end of the line, so the substitution keeps the prefix
before the first ': ' (or the whole text when there is none). -/
def cutColon (text : Line) : Line :=
  match findSub ": ".data text with
  | some i => text.take i
  | none => text

/-- The detailed value of an item (lines 473-476): extracted only when the
line resolved to a registry key and the text holds the separator ': '. -/
def itemDetailed (jsonKey : Option Line) (text : Line) : Option Line :=
  if jsonKey.isSome ∧ containsSub ": ".data text = true then
    match findSub ": ".data text with
    | some i => some (stripL (strip_shields (stripL (text.drop (i + 1)))))
    | none => none
  else none

/-- The simplified value of an item (lines 477-481): the normalization chain
applied to the detailed value, when both a mapping and a detailed value
exist. -/
def itemSimplified (mapping : Option MDMapping) (detailed : Option Line) :
    Except ParseErr (Option SimpVal) :=
  match mapping, detailed with
  | some m, some dv => (runSimplify m.simplify (.s dv)).map some
  | _, _ => Except.ok none

/-- One iteration of the metadata-list loop (update.py lines 443-481) up to
the point the item is fully populated: `idx` is the loop's 0-based `no`
before its increment, `root` the top-level forest built so far.  Returns the
line's indent and the item carrying `line_no = idx + 1` (Python increments
`no` before constructing the item). -/
def buildItem (fname : Line) (idx : Nat) (l : Line) (root : List MDItem) :
    Except ParseErr (Nat × MDItem) :=
  if startsWithL "* ".data (stripL l) = false then
    .error (.fatal (locMsg fname idx l " - expected metadata list line".data))
  else
    match l.findIdx? (fun c => c = '*') with
    | none => .error .indexError
    | some indent =>
      if indent % 2 ≠ 0 then .error (.fatal (locMsg fname idx l " - bad indent".data))
      else
        let text := stripL (l.drop (indent + 1))
        let baseKey := stripL (cutColon text)
        -- parent resolution, lines 458-465: the loop body reads
        -- parsed.tree[-1] on every iteration (not parent.tree[-1]), so any
        -- indent > 0 resolves to the last top-level item, and the emptiness
        -- assert looks at the top-level forest
        match (if indent = 0 then Except.ok Option.none
               else
                 match root.getLast? with
                 | none => Except.error ParseErr.orphan
                 | some last => Except.ok (some last.map_key)) with
        | .error e => .error e
        | .ok parentKey =>
          let mapKey :=
            match parentKey with
            | none => baseKey
            | some pk => pk ++ "/".data ++ baseKey
          let mapping := (METADATA_MAP.find? (fun e => e.1 = mapKey)).map (fun e => e.2)
          let jsonKey := mapping.map (fun m => m.json_key)
          match itemSimplified mapping (itemDetailed jsonKey text) with
          | .error e => .error e
          | .ok simplified =>
            .ok (indent,
              .mk (idx + 1) text indent [] mapKey mapping jsonKey
                (itemDetailed jsonKey text) simplified)

/-- Append the item under its resolved parent (lines 458-467): at the top
level for indent 0, else as a new last child of the last top-level item. -/
def appendChild (root : List MDItem) (indent : Nat) (item : MDItem) : List MDItem :=
  if indent = 0 then root ++ [item]
  else
    match root.getLast? with
    | none => root
    | some last =>
      root.dropLast ++
        [(match last with
          | .mk a b c tr d e f g h => .mk a b c (tr ++ [item]) d e f g h)]

/-- The metadata-list while loop (lines 442-481): stops at the end of the
line list or at the first blank line. -/
def listLoop (fname : Line) : List Line → Nat → MDParse → Except ParseErr MDParse
  | [], _, acc => .ok acc
  | l :: ls, idx, acc =>
    if l = [] then .ok acc
    else
      match buildItem fname idx l acc.tree with
      | .error e => .error e
      | .ok (indent, item) =>
        listLoop fname ls (idx + 1)
          ⟨acc.title, acc.summary, acc.metadata ++ [item], appendChild acc.tree indent item⟩

/-- The summary while loop (lines 430-432): the concatenated summary text and
the number of lines consumed. -/
def summaryLoop : List Line → (Line × Nat)
  | [] => ([], 0)
  | l :: ls =>
    if l ≠ [] ∧ startsWithL "*".data (stripL l) = false then
      let r := summaryLoop ls
      (" ".data ++ stripL l ++ r.1, r.2 + 1)
    else ([], 0)

/-- Line 419: every physical line right-stripped, plus the sentinel ''. -/
def mdLines (doc : List Line) : List Line := doc.map rstripL ++ [[]]

/-- parse_md_metadata (update.py lines 418-483) over the document's lines. -/
def parse_md_metadata (fname : Line) (doc : List Line) : Except ParseErr MDParse :=
  match mdLines doc with
  | l0 :: l1 :: s0 :: rest =>
    if startsWithL "# ".data l0 = true ∧ l1 = [] then
      if stripL s0 = [] ∨ startsWithL "*".data (stripL s0) = true then
        .error (.fatal (fname ++ ": missing summary paragraph".data))
      else
        let title := stripL (l0.drop 1)
        let sres := summaryLoop (s0 :: rest)
        let summary := stripL sres.1
        match (s0 :: rest).drop sres.2 with
        | [] => .error .indexError
        | b :: rest2 =>
          if stripL b ≠ [] then
            .error (.fatal (locMsg fname (2 + sres.2) b " - expected blank line".data))
          else
            match rest2 with
            | [] => .error .indexError
            | f :: _ =>
              if startsWithL "* ".data f = false then
                .error (.fatal (locMsg fname (3 + sres.2) f " - expected metadata list".data))
              else
                listLoop fname rest2 (3 + sres.2) ⟨title, summary, [], []⟩
    else .error (.fatal (fname ++ ": missing title".data))
  | _ => .error (.fatal (fname ++ ": missing title".data))

/-!
The writer, write_md_metadata (update.py lines 485-527).  The source sorts
each node's children in place while it recurses; here the whole tree is
sorted first (`sortForest`, `insertionSort` being the stable ascending sort
that Python's `list.sort` also is) and then emitted, which yields the same
line sequence because sorting a subtree changes no sort key.
-/

/-- A node's sort key (line 509): its registry position, or 1000 plus its
line number for unregistered keys. -/
def mdKeyOf (it : MDItem) : Nat :=
  match METADATA_MAP.findIdx? (fun e => e.1 = it.map_key) with
  | some i => i
  | none => 1000 + it.line_no

def mdKeyLe (a b : MDItem) : Prop := mdKeyOf a ≤ mdKeyOf b

instance : DecidableRel mdKeyLe := fun a b => Nat.decLe (mdKeyOf a) (mdKeyOf b)

mutual

def sortItem : MDItem → MDItem
  | .mk no text ind tree key mp jk dv sv =>
    .mk no text ind (List.insertionSort mdKeyLe (sortForest tree)) key mp jk dv sv

def sortForest : List MDItem → List MDItem
  | [] => []
  | it :: rest => sortItem it :: sortForest rest

end

/-- One emitted line (lines 499-505): align the label to the column width
when the line has a value, else emit the bare label. -/
def emitLineText (width : Nat) (ind : Line) (text : Line) : Line :=
  match findSub ": ".data text with
  | some i =>
    let lhs := ind ++ "* ".data ++ text.take i ++ ": ".data
    (if lhs.length < width then lhs ++ List.replicate (width - lhs.length) ' ' else lhs) ++
      lstripL (text.drop (i + 1))
  | none => ind ++ "* ".data ++ text

mutual

def emitOne (width : Nat) (ind : Line) : MDItem → List Line
  | .mk _ text _ tree _ _ _ _ _ =>
    emitLineText width ind text :: emitForest width (ind ++ "  ".data) tree

def emitForest (width : Nat) (ind : Line) : List MDItem → List Line
  | [] => []
  | it :: rest => emitOne width ind it ++ emitForest width ind rest

end

/-- The column width (lines 493-495): `max(4 + indent + text.index(': '))`
over the value-carrying items, clamped to [14, 32]; Python's max() raises on
an empty sequence. -/
def lhsWidth (metadata : List MDItem) : Except ParseErr Nat :=
  match metadata.filterMap
      (fun it => (findSub ": ".data it.text).map (fun i => 4 + it.indent + i)) with
  | [] => .error .valueError
  | w :: ws => .ok (min (max (ws.foldl Nat.max w) 14) 32)

/-- write_md_metadata (lines 485-527) on the document's lines: `.ok none`
when the regenerated text equals the original and the file is not written,
`.ok (some newDoc)` when the file is rewritten as `newDoc`. -/
def write_md_metadata (fname : Line) (doc : List Line) : Except ParseErr (Option (List Line)) :=
  match parse_md_metadata fname doc with
  | .error e => .error e
  | .ok parsed =>
    match lhsWidth parsed.metadata with
    | .error e => .error e
    | .ok width =>
      let reformatted := emitForest width [] (List.insertionSort mdKeyLe (sortForest parsed.tree))
      match parsed.metadata.map MDItem.line_no with
      | [] => .error .valueError
      | n :: ns =>
        let start := ns.foldl Nat.min n - 1
        let stop := ns.foldl Nat.max n
        let newLines := doc.take start ++ reformatted ++ doc.drop stop
        if newLines = doc then .ok none else .ok (some newLines)

/-!
The Standard-column abbreviation chain of format_table_columns
(update.py lines 682-689).
-/

/-- Line 683's pattern with its characters exactly as the file stores them:
the intended '≈' (U+2248) is double-encoded in the source file, which holds
the three characters 'â' '‰' 'ˆ' instead, so the rule matches only that
exact sequence and never a real '≈'. -/
def approxRE : RE :=
  reSeqL [.star true (.ch ' '), .ch '(', .ch 'â', .ch '‰', .ch 'ˆ',
          .star true (.ch ' '), reStr "ES".data, .dot, .ch ')']

/-- Line 684's pattern, anchored at the start. -/
def esParenRE : RE :=
  reSeqL [.grp 1 (.seq (reStr "ES".data) (.star true (.cls true ['(', ' '] []))),
          .star true (.ch ' '), .ch '(', .star true .dot, .ch ')']

/-- Line 685's pattern. -/
def parenRE : RE := reSeqL [.star true (.ch ' '), .ch '(', .star true .dot, .ch ')']

/-- Lines 683-686: the abbreviation chain before the sup-tag substitution,
producing the intermediate display form. -/
def stdAbbrPre (std : Line) : Line :=
  let std := reSub approxRE [] std
  let std := reSubAnchored esParenRE [Templ.ref 1, Templ.lit "*".data] std
  let std := stripL (reSub parenRE [] std)
  replaceAllL "+*".data "*".data std

/-- Line 687: the final display form. -/
def standardAbbr (std : Line) : Line :=
  replaceAllL "*".data "<sup>*</sup>".data (stdAbbrPre std)

/-- Lines 688-689: the value stored under standard_abbr, absent when the
abbreviated form is empty. -/
def standardAbbrStored (std : Line) : Option Line :=
  let s := standardAbbr std
  if s = [] then none else some s

/-!
Benchmark score summaries (update.py lines 248-257 and 626-634).  Scores are
JSON numbers, embedded as rationals.
-/

def sortedScores (scores : List ℚ) : List ℚ :=
  List.insertionSort (fun a b : ℚ => a ≤ b) scores

/-- The reported benchmark value (lines 252-254):
`scores = list(sorted(scores)); dist_json[col] = scores[len(scores) // 2]`.
The default is never read: the caller asserts a non-empty series. -/
def reportedScore (scores : List ℚ) : ℚ :=
  (sortedScores scores).getD (scores.length / 2) 0

/-- The numeric content of summarize_scores' rendered string: sample count,
median, mean, the square of the standard error of the mean (`none` exactly
when the ±-term is omitted), and the maximum. -/
structure ScoreSummary where
  n : Nat
  median : ℚ
  mean : ℚ
  semSq : Option ℚ
  maxScore : ℚ
deriving DecidableEq, Repr

/-- summarize_scores (lines 626-634), with the f-string's decimal float
rendering replaced by the summarized numbers themselves (`semSq` holds the
square of `sem = sd / sqrt n`, keeping the value rational); `none` for an
empty series, whose Python run would divide by zero (callers guard it). -/
def summarize_scores (scores : List ℚ) : Option ScoreSummary :=
  match scores with
  | [] => none
  | s0 :: _ =>
    let n := scores.length
    let median := (sortedScores scores).getD (n / 2) 0
    let mean := scores.sum / (n : ℚ)
    let maxv := scores.foldl (fun a b => max a b) s0
    if n = 1 then some ⟨n, median, mean, none, maxv⟩
    else
      let varSum := (scores.map (fun x => (x - mean) ^ 2)).sum
      some ⟨n, median, mean, some (varSum / (((n : ℚ) - 1) * (n : ℚ))), maxv⟩

/-- Modelled from the spec's words, for comparison with the code: the
statistical median of a series — the middle element of the sorted list when
the length is odd, the average of the two middle elements when even. -/
def specStatisticalMedian (scores : List ℚ) : Option ℚ :=
  match scores with
  | [] => none
  | _ =>
    let sorted := sortedScores scores
    let n := scores.length
    if n % 2 = 1 then some (sorted.getD (n / 2) 0)
    else some ((sorted.getD (n / 2 - 1) 0 + sorted.getD (n / 2) 0) / 2)

/-!
Python dicts are embedded as insertion-ordered association lists with unique
keys: lookup takes the first binding; assignment updates an existing key in
place and appends a new one, as a Python dict does.
-/

/-- d.get(k). -/
def getA {γ : Type} (d : List (String × γ)) (k : String) : Option γ :=
  (d.find? (fun p => p.1 = k)).map (fun p => p.2)

/-- d[k] = v. -/
def setA {γ : Type} (d : List (String × γ)) (k : String) (v : γ) : List (String × γ) :=
  if (d.find? (fun p => p.1 = k)).isSome then
    d.map (fun p => if p.1 = k then (p.1, v) else p)
  else d ++ [(k, v)]

/-!
Conformance scoring, parse_conformance_data (update.py lines 77-149).  A
result line `dir/name: result` is embedded as a record; the kangax weights
(produced by get_kangax_weights from the reference file) enter as a map.
-/

structure ConfTest where
  dir : String
  name : String
  result : String
deriving DecidableEq, Repr

/-- The full test path, group 1 of the line regex (line 95). -/
def testKey (t : ConfTest) : String := t.dir ++ "/" ++ t.name

/-- kangax_weights.get(test, 1) (line 107). -/
def weightOf (w : List (String × ℚ)) (k : String) : ℚ := (getA w k).getD 1

/-- m.get(k, 0) on a rational-valued map. -/
def qGet (m : List (String × ℚ)) (k : String) : ℚ := (getA m k).getD 0

/-- m[k] = m.get(k, 0) + q. -/
def bumpQ (m : List (String × ℚ)) (k : String) (q : ℚ) : List (String × ℚ) :=
  setA m k ((getA m k).getD 0 + q)

/-- m.setdefault(k, []).append(t). -/
def pushTest (m : List (String × List ConfTest)) (k : String) (t : ConfTest) :
    List (String × List ConfTest) :=
  setA m k ((getA m k).getD [] ++ [t])

/-- m[k] = m.get(k, 0) + 1 on a Nat-valued map. -/
def bumpN (m : List (String × Nat)) (k : String) : List (String × Nat) :=
  setA m k ((getA m k).getD 0 + 1)

/-- re.match('^(crashed|panic:.*)', result) (line 119): an anchored prefix
match. -/
def isCrash (result : String) : Bool :=
  "crashed".isPrefixOf result || "panic:".isPrefixOf result

structure ConfAcc where
  dir_pass : List (String × ℚ)
  dir_total : List (String × ℚ)
  tests_by_dir : List (String × List ConfTest)
  failing_by_dir : List (String × List ConfTest)
  crashes : Nat
  crashes_by_dir : List (String × Nat)
deriving Repr

/-- One iteration of the result-line loop (lines 97-121). -/
def confStep (w : List (String × ℚ)) (acc : ConfAcc) (t : ConfTest) : ConfAcc :=
  let wt := weightOf w (testKey t)
  let dt := bumpQ acc.dir_total t.dir wt
  let dp := if t.result = "OK" then bumpQ acc.dir_pass t.dir wt else acc.dir_pass
  let fb := if t.result = "OK" then acc.failing_by_dir else pushTest acc.failing_by_dir t.dir t
  let tb := pushTest acc.tests_by_dir t.dir t
  let cr := if isCrash t.result then acc.crashes + 1 else acc.crashes
  let cb := if isCrash t.result then bumpN acc.crashes_by_dir t.dir else acc.crashes_by_dir
  ⟨dp, dt, tb, fb, cr, cb⟩

def confFold (w : List (String × ℚ)) (tests : List ConfTest) : ConfAcc :=
  tests.foldl (confStep w) ⟨[], [], [], [], 0, []⟩

/-- Python round() at 4 decimals: the integer round is to nearest, ties to
even (the float representation noise of the source's binary arithmetic is
not modelled; the embedded arithmetic is exact). -/
def roundHalfEven (q : ℚ) : ℤ :=
  if q - ⌊q⌋ < 1 / 2 then ⌊q⌋
  else if q - ⌊q⌋ > 1 / 2 then ⌊q⌋ + 1
  else if ⌊q⌋ % 2 = 0 then ⌊q⌋ else ⌊q⌋ + 1

def pyRound4 (q : ℚ) : ℚ := ((roundHalfEven (q * 10000) : ℤ) : ℚ) / 10000

/-- conformance_scores (lines 123-125): per-directory weighted score in
dir_total's insertion order. -/
def conformance_scores (w : List (String × ℚ)) (tests : List ConfTest) :
    List (String × ℚ) :=
  (confFold w tests).dir_total.map
    (fun p => (p.1, pyRound4 (qGet (confFold w tests).dir_pass p.1 / p.2)))

/-- agg_score (lines 127-134) for a directory predicate standing for the
regex: the aggregate rounded score when the summed total weight is positive,
nothing otherwise. -/
def agg_score (w : List (String × ℚ)) (tests : List ConfTest) (p : String → Bool) :
    Option ℚ :=
  let acc := confFold w tests
  let pq := acc.dir_total.foldl
    (fun s e => if p e.1 then (s.1 + qGet acc.dir_pass e.1, s.2 + e.2) else s)
    ((0 : ℚ), (0 : ℚ))
  if pq.2 > 0 then some (pyRound4 (pq.1 / pq.2)) else none

/-- Directory pattern '^es[1-5]$' (line 136). -/
def matchEs15 (d : String) : Bool :=
  d = "es1" || d = "es2" || d = "es3" || d = "es4" || d = "es5"

/-- Directory pattern '^kangax-es20..$' (line 137). -/
def matchKangax2016 (d : String) : Bool :=
  "kangax-es20".isPrefixOf d && d.length = 13

/-- The total weight T of a category: the summed weights of its tests. -/
def dirWeightSum (w : List (String × ℚ)) (tests : List ConfTest) (d : String) : ℚ :=
  ((tests.filter (fun t => t.dir = d)).map (fun t => weightOf w (testKey t))).sum

/-- The pass weight P of a category: the summed weights of its OK tests. -/
def dirPassSum (w : List (String × ℚ)) (tests : List ConfTest) (d : String) : ℚ :=
  ((tests.filter (fun t => t.dir = d ∧ t.result = "OK")).map
    (fun t => weightOf w (testKey t))).sum

/-- The category's failing tests, in input order. -/
def dirFailing (tests : List ConfTest) (d : String) : List ConfTest :=
  tests.filter (fun t => t.dir = d ∧ t.result ≠ "OK")

/-- The conformance renderer's check on one category (update.py lines
877-879): a category rendered at score exactly 1 passes only when its
failing list is empty; otherwise the bare assert aborts the run. -/
def conformanceCategoryRenderOk (score : ℚ) (failing : List ConfTest) : Bool :=
  if score = 1 then failing.isEmpty else true

/-!
The engine-data merge pipeline, do_engine_data (update.py lines 151-298).
A row dict is embedded as an insertion-ordered association list of scalar
JSON values, with the row's 'bench' mapping (whose values are dicts) held in
a separate field: the source reads it only at lines 216, 242-243, 259 and
268-269, and unconditionally drops a 'bench' key from every flattened entry
(line 275), so no claim observes a nested dict inside a row's scalar value.
-/

inductive JVal where
  | s (v : String)
  | i (n : Int)
  | q (v : ℚ)
  | b (v : Bool)
  | summ (v : ScoreSummary)
deriving DecidableEq, Repr

abbrev Dict := List (String × JVal)

/-- d.get(k). -/
def dictGet (d : Dict) (k : String) : Option JVal := getA d k

/-- d[k] = v. -/
def dictSet (d : Dict) (k : String) (v : JVal) : Dict := setA d k v

/-- res.update(b) applied to a copy of a: merge_jsons (lines 619-624). -/
def dictUpdate (a b : Dict) : Dict :=
  b.foldl (fun acc p => dictSet acc p.1 p.2) a

/-- d.pop(k) on a unique-keyed dict, keeping the rest in order. -/
def dictPop (d : Dict) (k : String) : Dict :=
  d.filter (fun p => ¬ p.1 = k)

structure Row where
  fields : Dict
  bench : List (String × Dict)
deriving DecidableEq, Repr

abbrev Data := List (String × Row)

def lookupRow (data : Data) (k : String) : Option Row := getA data k

/-- row['bench'][key] lookup. -/
def benchGet (b : List (String × Dict)) (k : String) : Option Dict := getA b k

/-- row['bench'][key] = v. -/
def benchSet (b : List (String × Dict)) (k : String) (v : Dict) : List (String × Dict) :=
  setA b k v

/-- Mutate the one row stored under `k` (Python mutates data[k] in place). -/
def dataSetRow (data : Data) (k : String) (f : Row → Row) : Data :=
  data.map (fun p => if p.1 = k then (p.1, f p.2) else p)

/-- name.split('_', 1) when an underscore is present. -/
def splitUnderscore (name : String) : Option (String × String) :=
  match findSub "_".data name.data with
  | some i => some (⟨name.data.take i⟩, ⟨name.data.drop (i + 1)⟩)
  | none => none

/-- The initial row for a markdown file basename (lines 161-172 and 177):
id, and the engine/variant split when the name has an underscore; the bench
mapping starts empty.  The fields process_md and process_github add later
are independent of the claims and enter the theorems as quantified data. -/
def mkRowBase (name : String) : Row :=
  match splitUnderscore name with
  | some ev => ⟨[("id", .s name), ("engine", .s ev.1), ("variant", .s ev.2)], []⟩
  | none => ⟨[("id", .s name)], []⟩

/-- dist_json.get('variant', '') (lines 200, 234): a non-string variant
value would crash in the unmodelled filename assert that follows (line 201),
so it errors here. -/
def getVariant (d : Dict) : Except ParseErr String :=
  match dictGet d "variant" with
  | none => .ok ""
  | some (.s v) => .ok v
  | some _ => .error .typeError

/-- assert dist_json.get('arch', arch) == arch (lines 202, 236). -/
def checkArch (d : Dict) (arch : String) : Except ParseErr Unit :=
  match dictGet d "arch" with
  | none => .ok ()
  | some a => if a = .s arch then .ok () else .error (.fatal "arch assert".data)

/-- Processing of one dist/{arch}/*.json fragment (lines 193-216).  The
filename-suffix assert of line 201 concerns only the unmodelled file name. -/
def processDistFragment (data : Data) (arch : String) (frag : Dict) :
    Except ParseErr Data :=
  match dictGet frag "engine" with
  | none => .ok data
  | some (.s engine) =>
    if (lookupRow data engine).isNone then .ok data
    else
      match getVariant frag with
      | .error e => .error e
      | .ok variant =>
        match checkArch frag arch with
        | .error e => .error e
        | .ok _ =>
          if variant = "full" ∨ variant = "intl" then .ok data
          else if frag.all (fun p => p.1 = "arch" ∨ p.1 = "variant" ∨ p.1 = "engine") then .ok data
          else
            let frag2 :=
              if variant ≠ "" then
                match lookupRow data (engine ++ "_" ++ variant) with
                | some vrow => dictUpdate vrow.fields frag
                | none => frag
              else frag
            let bkey := arch ++ "/" ++ engine ++ "/" ++ variant
            .ok (dataSetRow data engine (fun r => ⟨r.fields, benchSet r.bench bkey frag2⟩))
  | some _ => .ok data

/-- benchmarks[col]: a score series or an error string (lines 248-257);
`type(benchmarks[col]) is dict` holds by construction here. -/
structure BenchCol where
  score : Option (List ℚ)
  errorMsg : Option String
deriving DecidableEq, Repr

/-- One bench/{arch}/*.json file: a metadata fragment plus named columns. -/
structure BenchFile where
  metadata : Dict
  benchmarks : List (String × BenchCol)
deriving DecidableEq, Repr

/-- The per-column update of lines 248-257: a truthy score series stores its
middle sorted element and the summary; otherwise a truthy error string
stores the error. -/
def applyBenchCol (d : Dict) (col : String) (c : BenchCol) : Dict :=
  match c.score with
  | some (x :: xs) =>
    let scores := x :: xs
    let d := dictSet d col (.q (reportedScore scores))
    match summarize_scores (sortedScores scores) with
    | some su => dictSet d (col ++ "_detailed") (.summ su)
    | none => d
  | _ =>
    match c.errorMsg with
    | some e => if e ≠ "" then dictSet d (col ++ "_error") (.s e) else d
    | none => d

def strLeb (a b : String) : Prop := a ≤ b

instance : DecidableRel strLeb := fun a b => inferInstanceAs (Decidable (a ≤ b))

/-- Processing of one bench/{arch}/*.json fragment (lines 224-259). -/
def processBenchFragment (data : Data) (arch : String) (bf : BenchFile) :
    Except ParseErr Data :=
  let dist := bf.metadata
  match dictGet dist "engine" with
  | none => .ok data
  | some (.s engine) =>
    match lookupRow data engine with
    | none => .ok data
    | some row =>
      match getVariant dist with
      | .error e => .error e
      | .ok variant =>
        match checkArch dist arch with
        | .error e => .error e
        | .ok _ =>
          if variant = "full" then .ok data
          else
            let bkey := arch ++ "/" ++ engine ++ "/" ++ variant
            let dist :=
              match benchGet row.bench bkey with
              | some prev => dictUpdate prev dist
              | none => dist
            let dist := if variant = "jitless" then dictSet dist "jit" (.s "") else dist
            let cols := List.insertionSort strLeb (bf.benchmarks.map (fun p => p.1))
            let dist := cols.foldl
              (fun d col =>
                match (bf.benchmarks.find? (fun p => p.1 = col)).map (fun p => p.2) with
                | some c => applyBenchCol d col c
                | none => d)
              dist
            .ok (dataSetRow data engine (fun r => ⟨r.fields, benchSet r.bench bkey dist⟩))
  | some _ => .ok data

/-- The flattening of one bench entry (lines 269-277): pop the engine, elide
every field equal on that engine's row, then drop title and bench.  The
source's loop variable `row` is rebound to data[engine] here, which is the
enclosing row whenever the entry was stored under its own engine key (every
entry the pipeline above stores). -/
def flattenEntry (data : Data) (dist : Dict) : Except ParseErr Dict :=
  match dictGet dist "engine" with
  | some (.s engine) =>
    let dist := dictPop dist "engine"
    match lookupRow data engine with
    | none => .error .keyError
    | some prow =>
      let dist := dist.filter (fun p => ¬ dictGet prow.fields p.1 = some p.2)
      .ok (dictPop (dictPop dist "title") "bench")
  | _ => .error .keyError

/-- An output row: its scalar fields and the flattened bench list; the
source deletes the 'bench' key when the list is empty (lines 284-285), so an
empty list here stands for an absent key. -/
structure OutRow where
  fields : Dict
  bench : List Dict
deriving DecidableEq, Repr

/-- Error-propagating map over a list, the shape of the source's loops. -/
def mapME {α β : Type} (f : α → Except ParseErr β) : List α → Except ParseErr (List β)
  | [] => .ok []
  | a :: l =>
    match f a with
    | .error e => .error e
    | .ok b =>
      match mapME f l with
      | .error e => .error e
      | .ok bs => .ok (b :: bs)

/-- Dropping variant rows and flattening bench (lines 264-285). -/
def flattenRows (data : Data) : Except ParseErr (List OutRow) :=
  mapME
    (fun p =>
      match mapME
          (fun k =>
            match benchGet p.2.bench k with
            | some d => flattenEntry data d
            | none => Except.error ParseErr.keyError)
          (List.insertionSort strLeb (p.2.bench.map (fun e => e.1))) with
      | .error e => .error e
      | .ok flat => .ok (⟨p.2.fields, flat⟩ : OutRow))
    (data.filter (fun p => dictGet p.2.fields "variant" = none))

/-!
Concrete inputs used by the claim theorems.
-/

/-- Whether a raw document line is a metadata-list line: non-blank after
right-stripping, and starting with "* " once stripped. -/
def isListLine (l : Line) : Bool :=
  decide (rstripL l ≠ []) && startsWithL "* ".data (stripL l)

def isListLineAt (doc : List Line) (i : Nat) : Bool :=
  match doc.get? i with
  | some l => isListLine l
  | none => false

/-- The writer's 0-based start of the replaced range (line 519). -/
def blockStart (p : MDParse) : Nat :=
  match p.metadata.map MDItem.line_no with
  | [] => 0
  | n :: ns => ns.foldl Nat.min n - 1

/-- The writer's 0-based end (exclusive) of the replaced range (line 520). -/
def blockStop (p : MDParse) : Nat :=
  match p.metadata.map MDItem.line_no with
  | [] => 0
  | n :: ns => ns.foldl Nat.max n

/-- The regenerated metadata-list lines (lines 497-514): depth-first over
the registry-sorted forest with the computed column width. -/
def regenLines (width : Nat) (p : MDParse) : List Line :=
  emitForest width [] (List.insertionSort mdKeyLe (sortForest p.tree))

/-- An item extracts a detailed value only past a ': ' separator; with no
': ' in its text it is label-only: no detailed or simplified value, and its
map key is its whole text (prefixed by the parent chain when nested). -/
def labelOnlyOk (it : MDItem) : Prop :=
  (it.detailed_value ≠ none → containsSub ": ".data it.text = true) ∧
  (containsSub ": ".data it.text = false →
    it.detailed_value = none ∧ it.simplified_value = none ∧
    (it.map_key = it.text ∨ ∃ pre, it.map_key = pre ++ "/".data ++ it.text))

/-- A well-formed document whose single metadata line is NOT aligned to the
computed column width (14): parsing and writing re-pads the label. -/
def c1doc : List Line :=
  ["# Foo".data, "".data, "A thing.".data, "".data, "* Homepage: http://x".data]

/-- The same document as the writer regenerates it. -/
def c1docAligned : List Line :=
  ["# Foo".data, "".data, "A thing.".data, "".data, "* Homepage:   http://x".data]

/-- A document whose third metadata line is indented 4 spaces under a
2-space line. -/
def c2doc : List Line :=
  ["# T".data, "".data, "S.".data, "".data,
   "* A".data, "  * B".data, "    * C".data]

/-- A document whose 6th line (0-based index 5) is indented 3 spaces. -/
def c6doc : List Line :=
  ["# T".data, "".data, "S.".data, "".data, "* A".data, "   * B".data]

/-- The bad-indent message the parser emits for c6doc. -/
def c6msg : Line := "f.md:5:    * B - bad indent".data

/-- A document with a colon not followed by a space on its metadata line. -/
def c9doc : List Line :=
  ["# T".data, "".data, "S.".data, "".data, "* Note:x".data]

/-- 24999 passing and one failing test in one directory, all of weight 1:
the weighted ratio 24999/25000 = 0.99996 rounds to exactly 1 at 4 decimals
while a failing test remains. -/
def c5passTest : ConfTest := ⟨"es5", "t", "OK"⟩

def c5failTest : ConfTest := ⟨"es5", "t", "fail"⟩

def c5tests : List ConfTest := List.replicate 24999 c5passTest ++ [c5failTest]

/-- The engine-data set of the C4 scenario: a parent row foo and a variant
row foo_v2, and a dist fragment naming engine foo, variant v2. -/
def c4data : Data := [("foo", mkRowBase "foo"), ("foo_v2", mkRowBase "foo_v2")]

def c4frag : Dict := [("engine", .s "foo"), ("variant", .s "v2"), ("binary_size", .i 123)]

/-- A dist fragment with variant full, used only for conformance. -/
def c10frag : Dict := [("engine", .s "foo"), ("variant", .s "full"), ("binary_size", .i 1)]

/-- A bench fragment with variant full. -/
def c10bf : BenchFile :=
  ⟨[("engine", .s "foo"), ("variant", .s "full")], [("octane", ⟨some [1], none⟩)]⟩

/-!
Theorems.  Each claim of the specification is settled by the theorem naming
it; counterexample theorems are closed statements at the concrete inputs
above.
-/

theorem getA_setA_self {γ : Type} (d : List (String × γ)) (k : String) (v : γ) :
    getA (setA d k v) k = some v := by
  unfold getA setA
  by_cases h : (d.find? (fun p => p.1 = k)).isSome
  · rw [if_pos h, List.find?_map]
    have hfix : (fun p : String × γ => decide (p.1 = k)) ∘
        (fun p : String × γ => if p.1 = k then (p.1, v) else p) =
        fun p : String × γ => decide (p.1 = k) := by
      funext p
      by_cases hp : p.1 = k <;> simp [hp]
    rw [hfix]
    obtain ⟨e, he⟩ := Option.isSome_iff_exists.mp h
    have hk : e.1 = k := by simpa using List.find?_some he
    rw [he]
    simp [hk]
  · rw [if_neg h, List.find?_append]
    have hn : d.find? (fun p => p.1 = k) = none := by
      cases hf : d.find? (fun p => p.1 = k)
      · rfl
      · exact absurd (by simp [hf]) h
    rw [hn]
    simp

theorem getA_setA_ne {γ : Type} (d : List (String × γ)) (k k2 : String) (v : γ)
    (h : k2 ≠ k) : getA (setA d k v) k2 = getA d k2 := by
  unfold getA setA
  by_cases hs : (d.find? (fun p => p.1 = k)).isSome
  · rw [if_pos hs, List.find?_map]
    have hfix : (fun p : String × γ => decide (p.1 = k2)) ∘
        (fun p : String × γ => if p.1 = k then (p.1, v) else p) =
        fun p : String × γ => decide (p.1 = k2) := by
      funext p
      by_cases hp : p.1 = k <;> simp [hp]
    rw [hfix]
    cases hf : d.find? (fun p => p.1 = k2) with
    | none => simp
    | some e =>
      have hk2 : e.1 = k2 := by simpa using List.find?_some hf
      have hne : ¬ e.1 = k := by rw [hk2]; exact h
      simp [hne]
  · rw [if_neg hs, List.find?_append]
    have h1 : List.find? (fun p : String × γ => p.1 = k2) [(k, v)] = none := by
      simp [List.find?, Ne.symm h]
    rw [h1]
    simp

theorem getA_mem {γ : Type} {d : List (String × γ)} {k : String} {v : γ}
    (h : getA d k = some v) : (k, v) ∈ d := by
  unfold getA at h
  cases hf : d.find? (fun p => p.1 = k) with
  | none => rw [hf] at h; cases h
  | some e =>
    rw [hf] at h
    obtain ⟨a, b⟩ := e
    have hk : a = k := by simpa using List.find?_some hf
    have hb : b = v := by simpa using h
    subst hk
    subst hb
    exact List.mem_of_find?_eq_some hf

theorem mem_dictPop {d : Dict} {k2 : String} {e : String × JVal} (h : e ∈ dictPop d k2) :
    e ∈ d ∧ e.1 ≠ k2 := by
  unfold dictPop at h
  have hm := List.mem_filter.mp h
  exact ⟨hm.1, by simpa using hm.2⟩

theorem dictGet_pop_self (d : Dict) (k : String) : dictGet (dictPop d k) k = none := by
  have hn : (dictPop d k).find? (fun p => p.1 = k) = none := by
    rw [List.find?_eq_none]
    intro x hx
    simpa using (mem_dictPop hx).2
  unfold dictGet getA
  rw [hn]
  rfl

theorem lookupRow_dataSetRow_self (data : Data) (k : String) (f : Row → Row) :
    lookupRow (dataSetRow data k f) k = (lookupRow data k).map f := by
  unfold lookupRow dataSetRow getA
  rw [List.find?_map]
  have hfix : (fun p : String × Row => decide (p.1 = k)) ∘
      (fun p : String × Row => if p.1 = k then (p.1, f p.2) else p) =
      fun p : String × Row => decide (p.1 = k) := by
    funext p
    by_cases hp : p.1 = k <;> simp [hp]
  rw [hfix]
  cases hf : data.find? (fun p => p.1 = k) with
  | none => simp
  | some e =>
    have hk : e.1 = k := by simpa using List.find?_some hf
    simp [hk]

theorem lookupRow_dataSetRow_ne (data : Data) (k k2 : String) (f : Row → Row)
    (h : k2 ≠ k) : lookupRow (dataSetRow data k f) k2 = lookupRow data k2 := by
  unfold lookupRow dataSetRow getA
  rw [List.find?_map]
  have hfix : (fun p : String × Row => decide (p.1 = k2)) ∘
      (fun p : String × Row => if p.1 = k then (p.1, f p.2) else p) =
      fun p : String × Row => decide (p.1 = k2) := by
    funext p
    by_cases hp : p.1 = k <;> simp [hp]
  rw [hfix]
  cases hf : data.find? (fun p => p.1 = k2) with
  | none => simp
  | some e =>
    have hk2 : e.1 = k2 := by simpa using List.find?_some hf
    have hne : ¬ e.1 = k := by rw [hk2]; exact h
    simp [hne]

theorem dictGet_dictUpdate_of_absent (a b : Dict) (k : String)
    (h : ∀ e ∈ b, e.1 ≠ k) : dictGet (dictUpdate a b) k = dictGet a k := by
  induction b generalizing a with
  | nil => rfl
  | cons p rest ih =>
    have hstep : dictUpdate a (p :: rest) = dictUpdate (dictSet a p.1 p.2) rest := rfl
    rw [hstep, ih _ (fun e he => h e (List.mem_cons_of_mem _ he))]
    exact getA_setA_ne _ _ _ _ (Ne.symm (h p (List.mem_cons_self _ _)))

theorem dictGet_dictUpdate_right (a b : Dict) (k : String) (v : JVal) :
    dictGet b k = some v → (b.map (fun p => p.1)).Nodup →
    dictGet (dictUpdate a b) k = some v := by
  induction b generalizing a with
  | nil => intro hget _; cases hget
  | cons p rest ih =>
    intro hget hnd
    rw [List.map_cons] at hnd
    have hnd1 := (List.nodup_cons.mp hnd).1
    have hnd2 := (List.nodup_cons.mp hnd).2
    have hstep : dictUpdate a (p :: rest) = dictUpdate (dictSet a p.1 p.2) rest := rfl
    rw [hstep]
    by_cases hp : p.1 = k
    · have hv : p.2 = v := by
        unfold dictGet getA at hget
        rw [List.find?_cons_of_pos _ (by simpa using hp)] at hget
        simpa using hget
      have hnotin : ∀ e ∈ rest, e.1 ≠ k := by
        intro e he hek
        exact hnd1 (hp ▸ hek ▸ List.mem_map_of_mem (fun q : String × JVal => q.1) he)
      rw [dictGet_dictUpdate_of_absent _ _ _ hnotin]
      rw [show dictGet (dictSet a p.1 p.2) k = getA (setA a p.1 p.2) k from rfl, hp, hv]
      exact getA_setA_self _ _ _
    · have hget2 : dictGet rest k = some v := by
        unfold dictGet getA at hget ⊢
        rw [List.find?_cons_of_neg _ (by simpa using hp)] at hget
        exact hget
      exact ih _ hget2 hnd2

theorem dictGet_none_of_no_mem {d : Dict} {k : String}
    (h : ∀ v, (k, v) ∉ d) : dictGet d k = none := by
  cases hg : dictGet d k with
  | none => rfl
  | some v => exact absurd (getA_mem hg) (h v)

theorem mapME_ok_mem {α β : Type} (f : α → Except ParseErr β) (l : List α) (out : List β)
    (h : mapME f l = .ok out) : ∀ b ∈ out, ∃ a ∈ l, f a = .ok b := by
  induction l generalizing out with
  | nil =>
    cases h
    intro b hb
    cases hb
  | cons a rest ih =>
    intro b hb
    unfold mapME at h
    cases hfa : f a with
    | error e => rw [hfa] at h; cases h
    | ok b0 =>
      rw [hfa] at h
      cases hrest : mapME f rest with
      | error e => rw [hrest] at h; cases h
      | ok bs =>
        rw [hrest] at h
        cases h
        rcases List.mem_cons.mp hb with rfl | hmem
        · exact ⟨a, List.mem_cons_self _ _, hfa⟩
        · obtain ⟨a2, ha2, hfa2⟩ := ih bs hrest b hmem
          exact ⟨a2, List.mem_cons_of_mem _ ha2, hfa2⟩

/-- What the flattening of one bench entry guarantees: no surviving field
equals the parent row's binding, and engine/title/bench are gone. -/
theorem flattenEntry_spec (data : Data) (dist : Dict) (engine : String) (prow : Row)
    (out : Dict)
    (he : dictGet dist "engine" = some (.s engine))
    (hp : lookupRow data engine = some prow)
    (hf : flattenEntry data dist = .ok out) :
    (∀ k v, dictGet out k = some v → ¬ dictGet prow.fields k = some v) ∧
    dictGet out "title" = none ∧ dictGet out "engine" = none ∧
    dictGet out "bench" = none := by
  unfold flattenEntry at hf
  simp only [he, hp] at hf
  cases hf
  refine ⟨?_, ?_, ?_, ?_⟩
  · intro k v hkv
    have hmem := getA_mem hkv
    have hm1 := mem_dictPop hmem
    have hm2 := mem_dictPop hm1.1
    have hm3 := (List.mem_filter.mp hm2.1).2
    exact fun hcon => (by simpa using hm3 : ¬ dictGet prow.fields k = some v) hcon
  · apply dictGet_none_of_no_mem
    intro v hv
    have hm1 := mem_dictPop hv
    have hm2 := mem_dictPop hm1.1
    exact hm2.2 rfl
  · apply dictGet_none_of_no_mem
    intro v hv
    have hm1 := mem_dictPop hv
    have hm2 := mem_dictPop hm1.1
    have hm3 := (List.mem_filter.mp hm2.1).1
    have hm4 := mem_dictPop hm3
    exact hm4.2 rfl
  · exact dictGet_pop_self _ _

/-- Rows surviving the flattening carry no variant key. -/
theorem flattenRows_no_variant (data : Data) (out : List OutRow)
    (h : flattenRows data = .ok out) :
    ∀ r ∈ out, dictGet r.fields "variant" = none := by
  intro r hr
  obtain ⟨p, hp, hfp⟩ := mapME_ok_mem _ _ _ h r hr
  have hpred := (List.mem_filter.mp hp).2
  cases hm : mapME
      (fun k =>
        match benchGet p.2.bench k with
        | some d => flattenEntry data d
        | none => Except.error ParseErr.keyError)
      (List.insertionSort strLeb (p.2.bench.map (fun e => e.1))) with
  | error e => rw [hm] at hfp; cases hfp
  | ok flat =>
    rw [hm] at hfp
    cases hfp
    simpa using hpred

/-- C8: the Standard field value "ES2021 (≈ES6)" reduces, via the
abbreviation chain of format_table_columns, to the display form "ES2021*"
and then to "ES2021<sup>*</sup>", which is the value stored under the
standard_abbr key.  (The rule of line 683 holds the double-encoded bytes
'â‰ˆ', not '≈', and so does not fire on this value; the rule of line 684
does.) -/
theorem c8_standard_abbr :
    stdAbbrPre "ES2021 (≈ES6)".data = "ES2021*".data ∧
    standardAbbr "ES2021 (≈ES6)".data = "ES2021<sup>*</sup>".data ∧
    standardAbbrStored "ES2021 (≈ES6)".data = some "ES2021<sup>*</sup>".data := by
  exact ⟨rfl, rfl, rfl⟩

/-- C2, the code evaluated at the failing input: the parser attaches the
4-space item of c2doc to the last top-level item (path key "A/C", a direct
child of "A"), not to the 2-space item "A/B" as the specification's
walk-up rule requires ("A/B/C"); the parent-resolution loop of lines
459-462 re-reads parsed.tree[-1] on every iteration. -/
theorem c2_flat_attach_eval :
    (parse_md_metadata "f.md".data c2doc).map
      (fun p =>
        (p.metadata.map (fun it => (String.mk it.map_key, it.indent)),
         p.tree.map (fun it => (String.mk it.map_key, it.tree.map (fun c => String.mk c.map_key))))) =
    .ok ([("A", 0), ("A/B", 2), ("A/C", 4)], [("A", ["A/B", "A/C"])]) := by
  exact rfl

/-- C1 counterexample: c1doc is well-formed and its metadata list needs no
reordering (sorting the parsed forest is the identity), yet the writer
rewrites the file — the label is re-padded to the computed column width —
so the output is not byte-identical to the original. -/
theorem c1_counterexample :
    (∃ p, parse_md_metadata "f.md".data c1doc = .ok p ∧
       List.insertionSort mdKeyLe (sortForest p.tree) = p.tree) ∧
    write_md_metadata "f.md".data c1doc = .ok (some c1docAligned) ∧
    c1docAligned ≠ c1doc := by
  exact ⟨⟨_, rfl, rfl⟩, rfl, by decide⟩

/-- C6 counterexample: parsing c6doc aborts on its 3-space line, which is
the document's 6th line (0-based index 5), but the fatal message carries
the 0-based index 5 — the character '6' appears nowhere in it — so the
message does not name the offending line's (1-based) line number. -/
theorem c6_counterexample :
    parse_md_metadata "f.md".data c6doc = .error (.fatal c6msg) ∧
    c6msg = locMsg "f.md".data 5 "   * B".data " - bad indent".data ∧
    c6doc.get? 5 = some "   * B".data ∧
    containsSub "6".data c6msg = false := by
  exact ⟨rfl, by decide, rfl, by decide⟩

/-- C3 counterexample: for the even-length series [1, 2] the code reports
the upper middle element 2, while the statistical median is 3/2. -/
theorem c3_counterexample :
    reportedScore [1, 2] = 2 ∧
    specStatisticalMedian [1, 2] = some (3 / 2) ∧
    (2 : ℚ) ≠ 3 / 2 := by
  have hs : sortedScores [(1 : ℚ), 2] = [1, 2] := by
    norm_num [sortedScores, List.insertionSort, List.orderedInsert]
  refine ⟨by decide, ?_, by norm_num⟩
  simp only [specStatisticalMedian, hs]
  norm_num

/-- C3 amended: for a non-empty score series the reported value is the
element at index ⌊n/2⌋ of the ascending-sorted series (the statistical
median when n is odd); the summary reports the sample count, that same
median, the mean and the maximum, and carries a standard-error term exactly
when the count exceeds 1; the series [10, 12, 14] summarizes to median 12,
mean 12 and the positive squared standard error 4/3. -/
theorem c3_median_summary (scores : List ℚ) (h : scores ≠ []) :
    reportedScore scores = (sortedScores scores).getD (scores.length / 2) 0 ∧
    (scores.length % 2 = 1 → specStatisticalMedian scores = some (reportedScore scores)) ∧
    (∃ su, summarize_scores scores = some su ∧ su.n = scores.length ∧
        su.median = reportedScore scores ∧ su.mean = scores.sum / scores.length ∧
        (su.semSq = none ↔ scores.length = 1)) ∧
    summarize_scores [10, 12, 14] = some ⟨3, 12, 12, some (4 / 3), 14⟩ ∧
    (0 : ℚ) < 4 / 3 := by
  obtain ⟨s0, rest, rfl⟩ := List.exists_cons_of_ne_nil h
  have h14 : summarize_scores [10, 12, 14] = some ⟨3, 12, 12, some (4 / 3), 14⟩ := by
    have hs : sortedScores [(10 : ℚ), 12, 14] = [10, 12, 14] := by
      norm_num [sortedScores, List.insertionSort, List.orderedInsert]
    simp only [summarize_scores, hs]
    norm_num [max_def]
  refine ⟨rfl, ?_, ?_, h14, by norm_num⟩
  · intro hodd
    simp only [specStatisticalMedian, reportedScore]
    rw [if_pos hodd]
  · by_cases hn : (s0 :: rest).length = 1
    · refine ⟨⟨(s0 :: rest).length,
          (sortedScores (s0 :: rest)).getD ((s0 :: rest).length / 2) 0,
          (s0 :: rest).sum / ((s0 :: rest).length : ℚ), none,
          (s0 :: rest).foldl (fun a b => max a b) s0⟩, ?_, rfl, rfl, rfl, ?_⟩
      · simp only [summarize_scores, if_pos hn]
      · simpa using hn
    · refine ⟨⟨(s0 :: rest).length,
          (sortedScores (s0 :: rest)).getD ((s0 :: rest).length / 2) 0,
          (s0 :: rest).sum / ((s0 :: rest).length : ℚ),
          some (((s0 :: rest).map
              (fun x => (x - (s0 :: rest).sum / ((s0 :: rest).length : ℚ)) ^ 2)).sum /
            ((((s0 :: rest).length : ℚ) - 1) * ((s0 :: rest).length : ℚ))),
          (s0 :: rest).foldl (fun a b => max a b) s0⟩, ?_, rfl, rfl, rfl, ?_⟩
      · simp only [summarize_scores, if_neg hn]
      · exact ⟨fun hco => by simp at hco, fun h1 => absurd h1 hn⟩

/-- C10: a per-architecture distribution fragment whose variant is full or
intl, and a benchmark fragment whose variant is full, are dropped before
they could touch any row's bench mapping: processing them returns the data
set unchanged, so no row's benchmark list ever holds an entry from them. -/
theorem c10_conformance_variants_skipped
    (data : Data) (arch : String) (frag : Dict) (bf : BenchFile) (v1 : String)
    (h1 : dictGet frag "variant" = some (.s v1))
    (h2 : v1 = "full" ∨ v1 = "intl")
    (h3 : dictGet frag "arch" = none ∨ dictGet frag "arch" = some (.s arch))
    (h4 : dictGet bf.metadata "variant" = some (.s "full"))
    (h5 : dictGet bf.metadata "arch" = none ∨ dictGet bf.metadata "arch" = some (.s arch)) :
    processDistFragment data arch frag = .ok data ∧
    processBenchFragment data arch bf = .ok data := by
  have hv : getVariant frag = .ok v1 := by simp [getVariant, h1]
  have ha : checkArch frag arch = .ok () := by
    rcases h3 with h3 | h3 <;> simp [checkArch, h3]
  have hv2 : getVariant bf.metadata = .ok "full" := by simp [getVariant, h4]
  have ha2 : checkArch bf.metadata arch = .ok () := by
    rcases h5 with h5 | h5 <;> simp [checkArch, h5]
  constructor
  · unfold processDistFragment
    cases he : dictGet frag "engine" with
    | none => rfl
    | some ev =>
      cases ev with
      | s engine =>
        by_cases hl : (lookupRow data engine).isNone
        · simp [hl]
        · have h2' : (v1 = "full" ∨ v1 = "intl") = True := by simp [h2]
          simp [hl, hv, ha, h2']
      | i n => rfl
      | q v => rfl
      | b v => rfl
      | summ v => rfl
  · unfold processBenchFragment
    cases he : dictGet bf.metadata "engine" with
    | none => simp [he]
    | some ev =>
      cases ev with
      | s engine =>
        cases hl : lookupRow data engine with
        | none => simp [he, hl]
        | some row => simp [he, hl, hv2, ha2]
      | i n => simp [he]
      | q v => simp [he]
      | b v => simp [he]
      | summ v => simp [he]

/-- Witness for C10 at a concrete data set and full-variant fragments. -/
theorem c10_witness :
    processDistFragment c4data "arm64" c10frag = .ok c4data ∧
    processBenchFragment c4data "arm64" c10bf = .ok c4data :=
  c10_conformance_variants_skipped c4data "arm64" c10frag c10bf "full"
    rfl (Or.inl rfl) (Or.inl rfl) rfl (Or.inl rfl)

/-- Witness for C3 at the series [10, 12, 14]. -/
theorem c3_median_summary_witness :
    ∃ su, summarize_scores [10, 12, 14] = some su ∧
      su.median = reportedScore [10, 12, 14] ∧ su.semSq ≠ none := by
  obtain ⟨-, -, ⟨su, h1, -, h2, -, h3⟩, -, -⟩ :=
    c3_median_summary [10, 12, 14] (by simp)
  refine ⟨su, h1, h2, ?_⟩
  intro hno
  simpa using h3.mp hno

/-- C4: a dist fragment naming engine_variant with the variant row present
is folded into the engine row's bench mapping under `arch/engine/variant` as
the merge of the variant row's fields with the fragment; flattening elides
every field equal on the parent row (and drops engine and title); rows with
a variant key never reach the flattened output, and a name of the form
engine_variant always carries one. -/
theorem c4_variant_fold
    (data : Data) (arch engine variant : String) (frag : Dict) (prow vrow : Row)
    (h1 : dictGet frag "engine" = some (.s engine))
    (h2 : lookupRow data engine = some prow)
    (h3 : dictGet frag "variant" = some (.s variant))
    (h4 : dictGet frag "arch" = none ∨ dictGet frag "arch" = some (.s arch))
    (h5 : variant ≠ "full") (h6 : variant ≠ "intl") (h7 : variant ≠ "")
    (h8 : lookupRow data (engine ++ "_" ++ variant) = some vrow)
    (h9 : frag.all (fun p => p.1 = "arch" ∨ p.1 = "variant" ∨ p.1 = "engine") = false)
    (h10 : (frag.map (fun p => p.1)).Nodup) :
    processDistFragment data arch frag =
      .ok (dataSetRow data engine
        (fun r => ⟨r.fields,
          benchSet r.bench (arch ++ "/" ++ engine ++ "/" ++ variant)
            (dictUpdate vrow.fields frag)⟩)) ∧
    lookupRow (dataSetRow data engine
        (fun r => ⟨r.fields,
          benchSet r.bench (arch ++ "/" ++ engine ++ "/" ++ variant)
            (dictUpdate vrow.fields frag)⟩)) engine =
      some ⟨prow.fields,
        benchSet prow.bench (arch ++ "/" ++ engine ++ "/" ++ variant)
          (dictUpdate vrow.fields frag)⟩ ∧
    benchGet (benchSet prow.bench (arch ++ "/" ++ engine ++ "/" ++ variant)
        (dictUpdate vrow.fields frag)) (arch ++ "/" ++ engine ++ "/" ++ variant) =
      some (dictUpdate vrow.fields frag) ∧
    (∀ k2, k2 ≠ engine →
      lookupRow (dataSetRow data engine
        (fun r => ⟨r.fields,
          benchSet r.bench (arch ++ "/" ++ engine ++ "/" ++ variant)
            (dictUpdate vrow.fields frag)⟩)) k2 = lookupRow data k2) ∧
    (∀ (dataX : Data) (prowX : Row) (out : Dict),
      lookupRow dataX engine = some prowX →
      flattenEntry dataX (dictUpdate vrow.fields frag) = .ok out →
      (∀ k v, dictGet out k = some v → ¬ dictGet prowX.fields k = some v) ∧
      dictGet out "engine" = none ∧ dictGet out "title" = none) ∧
    (∀ (dataX : Data) (outRows : List OutRow), flattenRows dataX = .ok outRows →
      ∀ r ∈ outRows, dictGet r.fields "variant" = none) ∧
    (∀ (name e v : String), splitUnderscore name = some (e, v) →
      dictGet (mkRowBase name).fields "variant" = some (.s v)) := by
  have hv : getVariant frag = .ok variant := by simp [getVariant, h3]
  have ha : checkArch frag arch = .ok () := by
    rcases h4 with h | h <;> simp [checkArch, h]
  refine ⟨?_, ?_, ?_, ?_, ?_, ?_, ?_⟩
  · unfold processDistFragment
    rw [h1]
    simp only [h2, hv, ha, h9]
    simp [h5, h6, h7, h8]
  · rw [lookupRow_dataSetRow_self, h2]
    rfl
  · exact getA_setA_self _ _ _
  · intro k2 hk2
    exact lookupRow_dataSetRow_ne _ _ _ _ hk2
  · intro dataX prowX out hpX hfX
    have heng : dictGet (dictUpdate vrow.fields frag) "engine" = some (.s engine) :=
      dictGet_dictUpdate_right _ _ _ _ h1 h10
    have hs := flattenEntry_spec dataX _ engine prowX out heng hpX hfX
    exact ⟨hs.1, hs.2.2.1, hs.2.1⟩
  · exact flattenRows_no_variant
  · intro name e v hsp
    simp [mkRowBase, hsp, dictGet, getA, List.find?]

/-- Witness for C4 at the concrete data set: "foo_v2"'s fragment folds into
row "foo" under key "arm64/foo/v2". -/
theorem c4_witness :
    processDistFragment c4data "arm64" c4frag =
      .ok (dataSetRow c4data "foo"
        (fun r => ⟨r.fields,
          benchSet r.bench ("arm64" ++ "/" ++ "foo" ++ "/" ++ "v2")
            (dictUpdate (mkRowBase "foo_v2").fields c4frag)⟩)) ∧
    dictGet (mkRowBase "foo_v2").fields "variant" = some (.s "v2") :=
  ⟨(c4_variant_fold c4data "arm64" "foo" "v2" c4frag (mkRowBase "foo") (mkRowBase "foo_v2")
      rfl rfl rfl (Or.inl rfl) (by decide) (by decide) (by decide) rfl (by decide)
      (by decide)).1,
   (c4_variant_fold c4data "arm64" "foo" "v2" c4frag (mkRowBase "foo") (mkRowBase "foo_v2")
      rfl rfl rfl (Or.inl rfl) (by decide) (by decide) (by decide) rfl (by decide)
      (by decide)).2.2.2.2.2.2 "foo_v2" "foo" "v2" rfl⟩

theorem dropWhile_idem (p : Char → Bool) (l : Line) :
    (l.dropWhile p).dropWhile p = l.dropWhile p := by
  induction l with
  | nil => rfl
  | cons c cs ih =>
    by_cases hc : p c
    · simpa [List.dropWhile, hc] using ih
    · simp [List.dropWhile, hc]

theorem lstripL_idem (s : Line) : lstripL (lstripL s) = lstripL s :=
  dropWhile_idem pySpace s

theorem rstripL_cons (c : Char) (cs : Line) :
    rstripL (c :: cs) =
      match rstripL cs with
      | [] => if pySpace c then [] else [c]
      | r => c :: r := rfl

theorem lstripL_cons_pos (c : Char) (cs : Line) (hc : pySpace c = true) :
    lstripL (c :: cs) = lstripL cs := by
  simp [lstripL, List.dropWhile, hc]

theorem lstripL_cons_neg (c : Char) (cs : Line) (hc : pySpace c = false) :
    lstripL (c :: cs) = c :: cs := by
  simp [lstripL, List.dropWhile, hc]

theorem rstripL_idem (s : Line) : rstripL (rstripL s) = rstripL s := by
  induction s with
  | nil => rfl
  | cons c cs ih =>
    rw [rstripL_cons]
    cases hr : rstripL cs with
    | nil =>
      show rstripL (if pySpace c = true then [] else [c]) =
        (if pySpace c = true then [] else [c])
      by_cases hc : pySpace c
      · rw [if_pos hc]
        rfl
      · rw [if_neg hc]
        show rstripL [c] = [c]
        rw [rstripL_cons]
        show (if pySpace c = true then ([] : Line) else [c]) = [c]
        rw [if_neg hc]
    | cons r rs =>
      have hr2 : rstripL (r :: rs) = r :: rs := by rw [← hr]; exact ih
      show rstripL (c :: r :: rs) = c :: r :: rs
      rw [rstripL_cons, hr2]

theorem rstrip_lstrip_comm (s : Line) : rstripL (lstripL s) = lstripL (rstripL s) := by
  induction s with
  | nil => rfl
  | cons c cs ih =>
    by_cases hc : pySpace c
    · rw [lstripL_cons_pos c cs hc, ih, rstripL_cons]
      cases hr : rstripL cs with
      | nil =>
        show lstripL ([] : Line) = lstripL (if pySpace c = true then [] else [c])
        rw [if_pos hc]
      | cons r rs =>
        show lstripL (r :: rs) = lstripL (c :: r :: rs)
        rw [lstripL_cons_pos c _ hc]
    · have hc2 : pySpace c = false := by simpa using hc
      rw [lstripL_cons_neg c cs hc2, rstripL_cons]
      cases hr : rstripL cs with
      | nil =>
        show (if pySpace c = true then ([] : Line) else [c]) =
          lstripL (if pySpace c = true then [] else [c])
        rw [if_neg hc]
        show ([c] : Line) = lstripL [c]
        rw [lstripL_cons_neg c [] hc2]
      | cons r rs =>
        show (c :: r :: rs : Line) = lstripL (c :: r :: rs)
        rw [lstripL_cons_neg c _ hc2]

theorem stripL_idem (s : Line) : stripL (stripL s) = stripL s := by
  unfold stripL
  rw [rstrip_lstrip_comm, rstripL_idem, lstripL_idem]

theorem stripL_rstripL (s : Line) : stripL (rstripL s) = stripL s := by
  unfold stripL
  rw [rstripL_idem]

theorem rstripL_last_not_space :
    ∀ (t : Line) (c : Char) (cs : Line), rstripL t = c :: cs →
      pySpace ((c :: cs).getLast (by simp)) = false := by
  intro t
  induction t with
  | nil => intro c cs h; cases h
  | cons a as iha =>
    intro c cs h
    rw [rstripL_cons] at h
    cases hra : rstripL as with
    | nil =>
      rw [hra] at h
      by_cases ha : pySpace a
      · rw [if_pos ha] at h; cases h
      · rw [if_neg ha] at h
        have h2 : ([a] : Line) = c :: cs := h
        cases h2
        simpa using ha
    | cons r rs =>
      rw [hra] at h
      have h2 : (a :: r :: rs : Line) = c :: cs := h
      cases h2
      have := iha r rs hra
      simpa [List.getLast_cons] using this

theorem rstripL_eq_nil_of_strip (s : Line) (h : stripL s = []) : rstripL s = [] := by
  unfold stripL at h
  have hall : ∀ c ∈ rstripL s, pySpace c = true := List.dropWhile_eq_nil_iff.mp h
  cases hr : rstripL s with
  | nil => rfl
  | cons c cs =>
    exfalso
    have hlast := rstripL_last_not_space s c cs hr
    have hmem : (c :: cs).getLast (by simp) ∈ rstripL s := by
      rw [hr]
      exact List.getLast_mem _
    rw [hall _ hmem] at hlast
    cases hlast

theorem startsWith_star_of_starSpace (s : Line) (h : startsWithL "* ".data s = true) :
    startsWithL "*".data s = true := by
  cases s with
  | nil => simp [startsWithL, List.isPrefixOf] at h
  | cons c t =>
    simp [startsWithL, List.isPrefixOf] at h ⊢
    exact h.1

theorem startsWith_nil_false (p : Line) (hp : p ≠ []) : startsWithL p [] = false := by
  cases p with
  | nil => exact absurd rfl hp
  | cons c t => simp [startsWithL, List.isPrefixOf]

theorem foldl_min_range_ge : ∀ (k b a : Nat), a ≤ b → (List.range' b k).foldl Nat.min a = a := by
  intro k
  induction k with
  | zero => intro b a _; rfl
  | succ k ih =>
    intro b a hab
    rw [List.range'_succ, List.foldl_cons]
    have h2 : Nat.min a b = a := Nat.min_eq_left hab
    rw [h2]
    exact ih (b + 1) a (Nat.le_succ_of_le hab)

theorem foldl_max_range_succ : ∀ (k a : Nat), (List.range' (a + 1) k).foldl Nat.max a = a + k := by
  intro k
  induction k with
  | zero => intro a; rfl
  | succ k ih =>
    intro a
    rw [List.range'_succ, List.foldl_cons]
    have h2 : Nat.max a (a + 1) = a + 1 := Nat.max_eq_right (Nat.le_succ a)
    rw [h2, ih (a + 1)]
    omega

theorem qGet_bumpQ_self (m : List (String × ℚ)) (k : String) (q : ℚ) :
    qGet (bumpQ m k q) k = qGet m k + q := by
  unfold qGet bumpQ
  rw [getA_setA_self]
  rfl

theorem qGet_bumpQ_ne (m : List (String × ℚ)) (k k2 : String) (q : ℚ) (h : k2 ≠ k) :
    qGet (bumpQ m k q) k2 = qGet m k2 := by
  unfold qGet bumpQ
  rw [getA_setA_ne _ _ _ _ h]

theorem getA_pushTest_self (m : List (String × List ConfTest)) (k : String) (t : ConfTest) :
    getA (pushTest m k t) k = some ((getA m k).getD [] ++ [t]) := by
  unfold pushTest
  exact getA_setA_self _ _ _

theorem getA_pushTest_ne (m : List (String × List ConfTest)) (k k2 : String) (t : ConfTest)
    (h : k2 ≠ k) : getA (pushTest m k t) k2 = getA m k2 := by
  unfold pushTest
  exact getA_setA_ne _ _ _ _ h

theorem dirWeightSum_cons (w : List (String × ℚ)) (t : ConfTest) (rest : List ConfTest)
    (d : String) :
    dirWeightSum w (t :: rest) d =
      (if t.dir = d then weightOf w (testKey t) else 0) + dirWeightSum w rest d := by
  unfold dirWeightSum
  by_cases hd : t.dir = d <;> simp [List.filter_cons, hd]

theorem dirPassSum_cons (w : List (String × ℚ)) (t : ConfTest) (rest : List ConfTest)
    (d : String) :
    dirPassSum w (t :: rest) d =
      (if t.dir = d ∧ t.result = "OK" then weightOf w (testKey t) else 0) +
        dirPassSum w rest d := by
  unfold dirPassSum
  by_cases hd : t.dir = d ∧ t.result = "OK" <;> simp [List.filter_cons, hd]

theorem dirFailing_cons (t : ConfTest) (rest : List ConfTest) (d : String) :
    dirFailing (t :: rest) d =
      (if t.dir = d ∧ t.result ≠ "OK" then [t] else []) ++ dirFailing rest d := by
  unfold dirFailing
  by_cases hd : t.dir = d ∧ t.result ≠ "OK" <;> simp [List.filter_cons, hd]

theorem foldl_confStep_total (w : List (String × ℚ)) (d : String) :
    ∀ (tests : List ConfTest) (acc : ConfAcc),
      qGet (tests.foldl (confStep w) acc).dir_total d =
        qGet acc.dir_total d + dirWeightSum w tests d := by
  intro tests
  induction tests with
  | nil => intro acc; simp [dirWeightSum]
  | cons t rest ih =>
    intro acc
    rw [List.foldl_cons, ih, dirWeightSum_cons]
    have hstep : (confStep w acc t).dir_total =
        bumpQ acc.dir_total t.dir (weightOf w (testKey t)) := rfl
    rw [hstep]
    by_cases hd : t.dir = d
    · subst hd
      rw [qGet_bumpQ_self, if_pos rfl]
      ring
    · rw [qGet_bumpQ_ne _ _ _ _ (fun he => hd he.symm), if_neg hd]
      ring

theorem foldl_confStep_pass (w : List (String × ℚ)) (d : String) :
    ∀ (tests : List ConfTest) (acc : ConfAcc),
      qGet (tests.foldl (confStep w) acc).dir_pass d =
        qGet acc.dir_pass d + dirPassSum w tests d := by
  intro tests
  induction tests with
  | nil => intro acc; simp [dirPassSum]
  | cons t rest ih =>
    intro acc
    rw [List.foldl_cons, ih, dirPassSum_cons]
    by_cases hok : t.result = "OK"
    · have hstep : (confStep w acc t).dir_pass =
          bumpQ acc.dir_pass t.dir (weightOf w (testKey t)) := by
        simp [confStep, hok]
      rw [hstep]
      by_cases hd : t.dir = d
      · subst hd
        rw [qGet_bumpQ_self, if_pos ⟨rfl, hok⟩]
        ring
      · rw [qGet_bumpQ_ne _ _ _ _ (fun he => hd he.symm),
          if_neg (fun hc => hd hc.1)]
        ring
    · have hstep : (confStep w acc t).dir_pass = acc.dir_pass := by
        simp [confStep, hok]
      rw [hstep, if_neg (fun hc => hok hc.2)]
      ring

theorem foldl_confStep_failing (w : List (String × ℚ)) (d : String) :
    ∀ (tests : List ConfTest) (acc : ConfAcc),
      (getA (tests.foldl (confStep w) acc).failing_by_dir d).getD [] =
        (getA acc.failing_by_dir d).getD [] ++ dirFailing tests d := by
  intro tests
  induction tests with
  | nil => intro acc; simp [dirFailing]
  | cons t rest ih =>
    intro acc
    rw [List.foldl_cons, ih, dirFailing_cons]
    by_cases hok : t.result = "OK"
    · have hstep : (confStep w acc t).failing_by_dir = acc.failing_by_dir := by
        simp [confStep, hok]
      rw [hstep, if_neg (fun hc => hc.2 hok)]
      simp
    · have hstep : (confStep w acc t).failing_by_dir =
          pushTest acc.failing_by_dir t.dir t := by
        simp [confStep, hok]
      rw [hstep]
      by_cases hd : t.dir = d
      · subst hd
        rw [getA_pushTest_self, if_pos ⟨rfl, hok⟩]
        simp
      · rw [getA_pushTest_ne _ _ _ _ (fun he => hd he.symm),
          if_neg (fun hc => hd hc.1)]
        simp

theorem getA_map_snd {γ δ : Type} (m : List (String × γ)) (f : String → γ → δ)
    (k : String) :
    getA (m.map (fun p => (p.1, f p.1 p.2))) k = (getA m k).map (f k) := by
  unfold getA
  rw [List.find?_map]
  have hfix : (fun p : String × δ => decide (p.1 = k)) ∘
      (fun p : String × γ => (p.1, f p.1 p.2)) =
      fun p : String × γ => decide (p.1 = k) := by
    funext p
    simp
  rw [hfix]
  cases hf : m.find? (fun p => p.1 = k) with
  | none => simp
  | some e =>
    have hk : e.1 = k := by simpa using List.find?_some hf
    simp [hk]

theorem conformance_scores_lookup (w : List (String × ℚ)) (tests : List ConfTest)
    (d : String) (T : ℚ)
    (hT : getA (confFold w tests).dir_total d = some T) :
    getA (conformance_scores w tests) d =
      some (pyRound4 (qGet (confFold w tests).dir_pass d / T)) := by
  unfold conformance_scores
  rw [getA_map_snd (confFold w tests).dir_total
      (fun k v => pyRound4 (qGet (confFold w tests).dir_pass k / v)), hT]
  rfl

theorem pyRound4_one : pyRound4 1 = 1 := by
  have hfl : ⌊(1 : ℚ) * 10000⌋ = 10000 := by
    norm_num
  unfold pyRound4 roundHalfEven
  rw [hfl]
  norm_num

theorem pyRound4_eq_one_ge (q : ℚ) (h : pyRound4 q = 1) : 19999 / 20000 ≤ q := by
  unfold pyRound4 at h
  have hr : roundHalfEven (q * 10000) = 10000 := by
    have h2 : (roundHalfEven (q * 10000) : ℚ) = 10000 := by
      field_simp at h
      exact_mod_cast h
    exact_mod_cast h2
  have hfl : (⌊q * 10000⌋ : ℚ) ≤ q * 10000 := Int.floor_le _
  unfold roundHalfEven at hr
  split_ifs at hr with h1 h2 h3
  · have : ((10000 : ℤ) : ℚ) ≤ q * 10000 := by rw [← hr]; exact hfl
    push_cast at this
    linarith
  · have h9 : ⌊q * 10000⌋ = 9999 := by omega
    have h9q : (⌊q * 10000⌋ : ℚ) = 9999 := by exact_mod_cast h9
    linarith
  · have : ((10000 : ℤ) : ℚ) ≤ q * 10000 := by rw [← hr]; exact hfl
    push_cast at this
    linarith
  · have h9 : ⌊q * 10000⌋ = 9999 := by omega
    have h9q : (⌊q * 10000⌋ : ℚ) = 9999 := by exact_mod_cast h9
    have htie : q * 10000 - ⌊q * 10000⌋ = 1 / 2 := le_antisymm (not_lt.mp h2) (not_lt.mp h1)
    linarith

/-- C5 amended: the computed category score is round(P/T, 4) with P and T
the weighted pass and total sums; zero failing tests force P = T and a score
of exactly 1; conversely a score of exactly 1 only bounds P/T below by
0.99995 and does not preclude failing tests (the renderer's assertion then
aborts); the rolled-up aggregates are the same rounding of summed weights. -/
theorem c5_scores (w : List (String × ℚ)) (tests : List ConfTest) (d : String) (T : ℚ)
    (hT : getA (confFold w tests).dir_total d = some T) :
    T = dirWeightSum w tests d ∧
    getA (conformance_scores w tests) d =
      some (pyRound4 (dirPassSum w tests d / T)) ∧
    (dirFailing tests d = [] → dirPassSum w tests d = T) ∧
    (dirFailing tests d = [] → T ≠ 0 → pyRound4 (dirPassSum w tests d / T) = 1) ∧
    (∀ q : ℚ, pyRound4 q = 1 → 19999 / 20000 ≤ q) ∧
    (∀ (pr : String → Bool) (r : ℚ), agg_score w tests pr = some r →
      ∃ P T2 : ℚ, 0 < T2 ∧ r = pyRound4 (P / T2)) := by
  have htotal : qGet (confFold w tests).dir_total d = dirWeightSum w tests d := by
    have := foldl_confStep_total w d tests ⟨[], [], [], [], 0, []⟩
    unfold confFold
    rw [this]
    simp [qGet, getA]
  have hTd : T = dirWeightSum w tests d := by
    rw [← htotal]
    unfold qGet
    rw [hT]
    rfl
  have hpass : qGet (confFold w tests).dir_pass d = dirPassSum w tests d := by
    have := foldl_confStep_pass w d tests ⟨[], [], [], [], 0, []⟩
    unfold confFold
    rw [this]
    simp [qGet, getA]
  have hPeqT : dirFailing tests d = [] → dirPassSum w tests d = T := by
    intro hempty
    rw [hTd]
    unfold dirPassSum dirWeightSum
    have hcong : ∀ t ∈ tests, (decide (t.dir = d ∧ t.result = "OK")) = decide (t.dir = d) := by
      intro t ht
      have hall := List.filter_eq_nil_iff.mp hempty t ht
      by_cases hd : t.dir = d
      · by_cases hok : t.result = "OK"
        · simp [hd, hok]
        · exact absurd ((by simpa using hall : t.dir = d → t.result = "OK") hd) hok
      · simp [hd]
    rw [List.filter_congr hcong]
  refine ⟨hTd, ?_, hPeqT, ?_, pyRound4_eq_one_ge, ?_⟩
  · rw [conformance_scores_lookup w tests d T hT, hpass]
  · intro hempty hT0
    rw [hPeqT hempty, div_self hT0]
    exact pyRound4_one
  · intro pr r hagg
    unfold agg_score at hagg
    dsimp only at hagg
    split_ifs at hagg with hpos
    exact ⟨_, _, hpos, (Option.some.inj hagg).symm⟩

theorem c5tests_weight : dirWeightSum [] c5tests "es5" = 25000 := by
  unfold dirWeightSum c5tests
  rw [List.filter_append, List.filter_replicate, if_pos (by decide)]
  rw [show List.filter (fun t : ConfTest => t.dir = "es5") [c5failTest] = [c5failTest] by decide]
  rw [List.map_append, List.map_replicate, List.sum_append, List.sum_replicate]
  norm_num [weightOf, testKey, getA, c5failTest, c5passTest]

theorem c5tests_pass : dirPassSum [] c5tests "es5" = 24999 := by
  unfold dirPassSum c5tests
  rw [List.filter_append, List.filter_replicate, if_pos (by decide)]
  rw [show List.filter (fun t : ConfTest => t.dir = "es5" ∧ t.result = "OK") [c5failTest] = []
      by decide]
  rw [List.map_append, List.map_replicate, List.sum_append, List.sum_replicate]
  norm_num [weightOf, testKey, getA, c5passTest]

theorem c5tests_failing : dirFailing c5tests "es5" = [c5failTest] := by
  unfold dirFailing c5tests
  rw [List.filter_append, List.filter_replicate, if_neg (by decide)]
  rw [show List.filter (fun t : ConfTest => t.dir = "es5" ∧ t.result ≠ "OK") [c5failTest] =
      [c5failTest] by decide]
  rfl

theorem c5tests_total : getA (confFold [] c5tests).dir_total "es5" = some 25000 := by
  have hq : qGet (confFold [] c5tests).dir_total "es5" = 25000 := by
    unfold confFold
    rw [foldl_confStep_total [] "es5" c5tests ⟨[], [], [], [], 0, []⟩, c5tests_weight]
    simp [qGet, getA]
  cases hg : getA (confFold [] c5tests).dir_total "es5" with
  | none =>
    exfalso
    unfold qGet at hq
    rw [hg] at hq
    simp at hq
  | some v =>
    unfold qGet at hq
    rw [hg] at hq
    simp at hq
    rw [hq]

theorem c5round : pyRound4 ((24999 : ℚ) / 25000) = 1 := by
  have hfl : ⌊((24999 : ℚ) / 25000) * 10000⌋ = 9999 := by
    rw [Int.floor_eq_iff]
    constructor <;> norm_num
  unfold pyRound4 roundHalfEven
  rw [hfl]
  rw [if_neg (by push_cast; norm_num), if_pos (by push_cast; norm_num)]
  norm_num

/-- C5 counterexample: with 25000 tests of weight 1 in one category and
24999 passing, the computed category score is exactly 1 (24999/25000 rounds
up at 4 decimals) while one failing test remains, and the renderer's check
on that category fails (its bare assert would abort the run). -/
theorem c5_counterexample :
    getA (conformance_scores [] c5tests) "es5" = some 1 ∧
    (getA (confFold [] c5tests).failing_by_dir "es5").getD [] = [c5failTest] ∧
    conformanceCategoryRenderOk 1 [c5failTest] = false := by
  refine ⟨?_, ?_, ?_⟩
  · have hs := conformance_scores_lookup [] c5tests "es5" 25000 c5tests_total
    have hp : qGet (confFold [] c5tests).dir_pass "es5" = 24999 := by
      unfold confFold
      rw [foldl_confStep_pass [] "es5" c5tests ⟨[], [], [], [], 0, []⟩, c5tests_pass]
      simp [qGet, getA]
    rw [hs, hp, c5round]
  · unfold confFold
    rw [foldl_confStep_failing [] "es5" c5tests ⟨[], [], [], [], 0, []⟩, c5tests_failing]
    simp [getA]
  · simp [conformanceCategoryRenderOk]

theorem itemDetailed_ne_none (jk : Option Line) (text : Line)
    (h : itemDetailed jk text ≠ none) : containsSub ": ".data text = true := by
  unfold itemDetailed at h
  by_cases hc : jk.isSome ∧ containsSub ": ".data text = true
  · exact hc.2
  · rw [if_neg hc] at h
    exact absurd rfl h

theorem itemDetailed_none_of_no_colon (jk : Option Line) (text : Line)
    (h : containsSub ": ".data text = false) : itemDetailed jk text = none := by
  unfold itemDetailed
  rw [if_neg]
  intro hc
  rw [hc.2] at h
  cases h

theorem itemSimplified_none (mp : Option MDMapping) : itemSimplified mp none = .ok none := by
  cases mp <;> rfl

theorem buildItem_ok (fname : Line) (idx : Nat) (l : Line) (root : List MDItem)
    (indent : Nat) (item : MDItem)
    (h : buildItem fname idx l root = .ok (indent, item)) :
    item.line_no = idx + 1 ∧
    l ≠ [] ∧ startsWithL "* ".data (stripL l) = true ∧
    (item.detailed_value ≠ none → containsSub ": ".data item.text = true) ∧
    (containsSub ": ".data item.text = false →
      item.detailed_value = none ∧ item.simplified_value = none ∧
      (item.map_key = item.text ∨ ∃ pre, item.map_key = pre ++ "/".data ++ item.text)) := by
  unfold buildItem at h
  by_cases hsw : startsWithL "* ".data (stripL l) = false
  · rw [if_pos hsw] at h
    cases h
  · rw [if_neg hsw] at h
    have hswt : startsWithL "* ".data (stripL l) = true := by
      cases hb : startsWithL "* ".data (stripL l)
      · exact absurd hb hsw
      · rfl
    split at h
    · cases h
    rename_i ind0 hfi
    by_cases hodd : ind0 % 2 ≠ 0
    · rw [if_pos hodd] at h
      cases h
    · rw [if_neg hodd] at h
      dsimp only at h
      split at h
      · cases h
      rename_i parentKey hpk
      split at h
      · cases h
      rename_i simplified hsim
      cases h
      refine ⟨rfl, ?_, hswt, ?_, ?_⟩
      · intro hl
        subst hl
        simp [stripL, lstripL, rstripL, startsWithL, List.isPrefixOf] at hswt
      · intro hdet
        exact itemDetailed_ne_none _ _ hdet
      · intro hnc
        have hnc2 : containsSub ": ".data (stripL (l.drop (indent + 1))) = false := hnc
        have hfs : findSub ": ".data (stripL (l.drop (indent + 1))) = none := by
          unfold containsSub at hnc2
          exact Option.not_isSome_iff_eq_none.mp (by simp [hnc2])
        have hcut : cutColon (stripL (l.drop (indent + 1))) = stripL (l.drop (indent + 1)) := by
          unfold cutColon
          rw [hfs]
        refine ⟨itemDetailed_none_of_no_colon _ _ hnc, ?_, ?_⟩
        · rw [itemDetailed_none_of_no_colon _ (stripL (l.drop (indent + 1))) hnc2,
            itemSimplified_none] at hsim
          cases hsim
          rfl
        · cases parentKey with
          | none =>
            left
            show stripL (cutColon (stripL (l.drop (indent + 1)))) = stripL (l.drop (indent + 1))
            rw [hcut, stripL_idem]
          | some pk =>
            right
            refine ⟨pk, ?_⟩
            show pk ++ "/".data ++ stripL (cutColon (stripL (l.drop (indent + 1)))) =
              pk ++ "/".data ++ stripL (l.drop (indent + 1))
            rw [hcut, stripL_idem]

theorem listLoop_spec (fname : Line) :
    ∀ (ls : List Line) (idx : Nat) (acc : MDParse) (p : MDParse),
      listLoop fname ls idx acc = .ok p →
      ∃ k, k ≤ ls.length ∧
        p.title = acc.title ∧ p.summary = acc.summary ∧
        (∃ its, p.metadata = acc.metadata ++ its ∧ its.length = k ∧
          its.map MDItem.line_no = List.range' (idx + 1) k) ∧
        (∀ i < k, ∃ l, ls.get? i = some l ∧ l ≠ [] ∧
          startsWithL "* ".data (stripL l) = true) ∧
        (k = ls.length ∨ ls.get? k = some []) := by
  intro ls
  induction ls with
  | nil =>
    intro idx acc p h
    unfold listLoop at h
    cases h
    exact ⟨0, by simp, rfl, rfl, ⟨[], by simp, rfl, rfl⟩, fun i hi => absurd hi (by omega),
      Or.inl rfl⟩
  | cons l ls ih =>
    intro idx acc p h
    unfold listLoop at h
    by_cases hl : l = []
    · rw [if_pos hl] at h
      cases h
      refine ⟨0, by simp, rfl, rfl, ⟨[], by simp, rfl, rfl⟩,
        fun i hi => absurd hi (by omega), Or.inr ?_⟩
      rw [hl]
      rfl
    · rw [if_neg hl] at h
      cases hb : buildItem fname idx l acc.tree with
      | error e => rw [hb] at h; cases h
      | ok pr =>
        rw [hb] at h
        obtain ⟨ind, item⟩ := pr
        obtain ⟨k, hk, ht, hsu, ⟨its, hmeta, hlen, hnos⟩, hlines, hstop⟩ :=
          ih (idx + 1) _ p h
        have hfacts := buildItem_ok fname idx l acc.tree ind item hb
        refine ⟨k + 1, by simpa using Nat.succ_le_succ hk, ht, hsu,
          ⟨item :: its, ?_, by simp [hlen], ?_⟩, ?_, ?_⟩
        · rw [hmeta]
          simp
        · rw [List.range'_succ, List.map_cons, hfacts.1, hnos]
        · intro i hi
          cases i with
          | zero => exact ⟨l, rfl, hl, hfacts.2.2.1⟩
          | succ i2 =>
            obtain ⟨l2, hg, hne, hsw⟩ := hlines i2 (by omega)
            exact ⟨l2, hg, hne, hsw⟩
        · rcases hstop with hstop | hstop
          · left
            simp [hstop]
          · right
            exact hstop

theorem listLoop_items (fname : Line) (P : MDItem → Prop)
    (hbuild : ∀ idx l root ind it, buildItem fname idx l root = .ok (ind, it) → P it) :
    ∀ (ls : List Line) (idx : Nat) (acc : MDParse) (p : MDParse),
      listLoop fname ls idx acc = .ok p →
      (∀ it ∈ acc.metadata, P it) → ∀ it ∈ p.metadata, P it := by
  intro ls
  induction ls with
  | nil =>
    intro idx acc p h hacc
    unfold listLoop at h
    cases h
    exact hacc
  | cons l ls ih =>
    intro idx acc p h hacc
    unfold listLoop at h
    by_cases hl : l = []
    · rw [if_pos hl] at h
      cases h
      exact hacc
    · rw [if_neg hl] at h
      cases hb : buildItem fname idx l acc.tree with
      | error e => rw [hb] at h; cases h
      | ok pr =>
        rw [hb] at h
        obtain ⟨ind, item⟩ := pr
        refine ih _ _ _ h ?_
        intro it hit
        rcases List.mem_append.mp hit with hle | hri
        · exact hacc it hle
        · rw [List.mem_singleton.mp hri]
          exact hbuild idx l acc.tree ind item hb

/-- Witness for C5 at the concrete category data. -/
theorem c5_scores_witness :
    (25000 : ℚ) = dirWeightSum [] c5tests "es5" ∧
    getA (conformance_scores [] c5tests) "es5" =
      some (pyRound4 (dirPassSum [] c5tests "es5" / 25000)) := by
  have h := c5_scores [] c5tests "es5" 25000 c5tests_total
  exact ⟨h.1, h.2.1⟩

theorem summaryLoop_cons_pos (l : Line) (ls : List Line)
    (hc : l ≠ [] ∧ startsWithL "*".data (stripL l) = false) :
    summaryLoop (l :: ls) =
      (" ".data ++ stripL l ++ (summaryLoop ls).1, (summaryLoop ls).2 + 1) := by
  show (if l ≠ [] ∧ startsWithL "*".data (stripL l) = false then
      let r := summaryLoop ls
      (" ".data ++ stripL l ++ r.1, r.2 + 1)
    else ([], 0)) = _
  rw [if_pos hc]

theorem summaryLoop_cons_neg (l : Line) (ls : List Line)
    (hc : ¬(l ≠ [] ∧ startsWithL "*".data (stripL l) = false)) :
    summaryLoop (l :: ls) = ([], 0) := by
  unfold summaryLoop
  rw [if_neg hc]

theorem summaryLoop_spec :
    ∀ (ls : List Line) (i : Nat), i < (summaryLoop ls).2 →
      ∃ l, ls.get? i = some l ∧ l ≠ [] ∧ startsWithL "*".data (stripL l) = false := by
  intro ls
  induction ls with
  | nil =>
    intro i hi
    simp [summaryLoop] at hi
  | cons l ls ih =>
    intro i hi
    by_cases hc : l ≠ [] ∧ startsWithL "*".data (stripL l) = false
    · rw [summaryLoop_cons_pos l ls hc] at hi
      cases i with
      | zero => exact ⟨l, rfl, hc.1, hc.2⟩
      | succ j =>
        obtain ⟨l2, hg, h1, h2⟩ := ih j (by simpa using hi)
        exact ⟨l2, hg, h1, h2⟩
    · rw [summaryLoop_cons_neg l ls hc] at hi
      simp at hi

theorem mdLines_get_ne_nil (doc : List Line) (j : Nat) (l : Line)
    (hg : (mdLines doc).get? j = some l) (hne : l ≠ []) :
    j < doc.length ∧ ∃ lraw, doc.get? j = some lraw ∧ rstripL lraw = l := by
  unfold mdLines at hg
  by_cases hj : j < doc.length
  · refine ⟨hj, ?_⟩
    rw [List.get?_append (by simpa using hj), List.get?_map] at hg
    cases hd : doc.get? j with
    | none => rw [hd] at hg; cases hg
    | some lraw =>
      rw [hd] at hg
      refine ⟨lraw, rfl, ?_⟩
      injection hg
  · exfalso
    rw [List.get?_append_right (by simp only [List.length_map]; omega)] at hg
    cases hm : j - (doc.map rstripL).length with
    | zero =>
      rw [hm] at hg
      simp at hg
      exact hne hg
    | succ mm =>
      rw [hm] at hg
      simp at hg

theorem isListLineAt_of_block (doc : List Line) (j : Nat) (l : Line)
    (hg : (mdLines doc).get? j = some l) (hne : l ≠ [])
    (hsw : startsWithL "* ".data (stripL l) = true) :
    isListLineAt doc j = true ∧ j < doc.length := by
  obtain ⟨hj, lraw, hd, hr⟩ := mdLines_get_ne_nil doc j l hg hne
  refine ⟨?_, hj⟩
  have h2 : stripL lraw = stripL l := by
    rw [← stripL_rstripL lraw, hr]
  unfold isListLineAt
  rw [hd]
  show isListLine lraw = true
  unfold isListLine
  rw [h2, hsw, hr]
  simp [hne]

theorem isListLineAt_false_of_not_star (doc : List Line) (j : Nat) (l : Line)
    (hg : (mdLines doc).get? j = some l)
    (hsw : startsWithL "* ".data (stripL l) = false) :
    isListLineAt doc j = false := by
  unfold isListLineAt
  cases hd : doc.get? j with
  | none => rfl
  | some lraw =>
    have hj : j < doc.length := by
      by_contra hc
      rw [List.get?_eq_none.mpr (by omega)] at hd
      cases hd
    have hg2 : (mdLines doc).get? j = some (rstripL lraw) := by
      unfold mdLines
      rw [List.get?_append (by simpa using hj), List.get?_map, hd]
      rfl
    rw [hg] at hg2
    injection hg2 with he
    have h2 : stripL lraw = stripL l := by
      rw [← stripL_rstripL lraw, ← he]
    show isListLine lraw = false
    unfold isListLine
    rw [h2, hsw, Bool.and_false]

theorem not_star_of_hash (l : Line) (h : startsWithL "# ".data l = true) :
    startsWithL "* ".data (stripL l) = false := by
  cases l with
  | nil => exact absurd h (by decide)
  | cons c cs =>
    have hc : c = '#' := by
      simp [startsWithL, List.isPrefixOf] at h
      exact h.1.symm
    subst hc
    show startsWithL "* ".data (lstripL (rstripL ('#' :: cs))) = false
    rw [rstripL_cons]
    cases hr : rstripL cs with
    | nil => decide
    | cons d ds =>
      show startsWithL "* ".data (lstripL ('#' :: d :: ds)) = false
      rw [lstripL_cons_neg '#' (d :: ds) (by decide)]
      rfl

/-- C6 amended: a metadata list line whose '*' sits at an odd indent aborts
the list loop with a fatal error whose message, built by locMsg, names the
file and the 0-based index `idx` the loop reached (not the 1-based line
number). -/
theorem c6_odd_indent (fname l : Line) (rest : List Line) (idx : Nat) (acc : MDParse)
    (ind : Nat)
    (hne : l ≠ [])
    (hsw : startsWithL "* ".data (stripL l) = true)
    (hfi : l.findIdx? (fun c => c = '*') = some ind)
    (hodd : ind % 2 = 1) :
    listLoop fname (l :: rest) idx acc =
      .error (.fatal (locMsg fname idx l " - bad indent".data)) := by
  have hb : buildItem fname idx l acc.tree =
      .error (.fatal (locMsg fname idx l " - bad indent".data)) := by
    unfold buildItem
    simp [hsw, hfi, hodd]
  unfold listLoop
  rw [if_neg hne, hb]

/-- Witness for C6's amended theorem at a concrete 3-space line. -/
theorem c6_odd_indent_witness :
    listLoop "f.md".data ["   * B".data] 5 ⟨[], [], [], []⟩ =
      .error (.fatal (locMsg "f.md".data 5 "   * B".data " - bad indent".data)) :=
  c6_odd_indent "f.md".data "   * B".data [] 5 ⟨[], [], [], []⟩ 3
    (by decide) (by decide) (by decide) (by decide)

theorem parse_ok_cases (fname : Line) (doc : List Line) (p : MDParse)
    (h : parse_md_metadata fname doc = .ok p) :
    ∃ l0 l1 s0 rest b rest2 f rest3,
      mdLines doc = l0 :: l1 :: s0 :: rest ∧
      startsWithL "# ".data l0 = true ∧ l1 = [] ∧
      ¬(stripL s0 = [] ∨ startsWithL "*".data (stripL s0) = true) ∧
      (s0 :: rest).drop (summaryLoop (s0 :: rest)).2 = b :: rest2 ∧
      stripL b = [] ∧
      rest2 = f :: rest3 ∧ startsWithL "* ".data f = true ∧
      listLoop fname rest2 (3 + (summaryLoop (s0 :: rest)).2)
        ⟨stripL (l0.drop 1), stripL (summaryLoop (s0 :: rest)).1, [], []⟩ = .ok p := by
  unfold parse_md_metadata at h
  split at h
  · rename_i l0 l1 s0 rest hm
    split at h
    · rename_i hc
      split at h
      · cases h
      · rename_i hs
        dsimp only at h
        split at h
        · cases h
        rename_i b rest2 hdrop
        split at h
        · cases h
        rename_i hbne
        split at h
        · cases h
        rename_i f rest3
        split at h
        · cases h
        rename_i hf
        refine ⟨l0, l1, s0, rest, b, f :: rest3, f, rest3, hm, hc.1, hc.2, hs, hdrop,
          not_not.mp hbne, rfl, ?_, h⟩
        revert hf
        cases startsWithL "* ".data f <;> simp
    · cases h
  · cases h

/-- C9: a parsed item stores a detailed (and hence simplified) value only
when its text contains ': '; a line with no ': ' — in particular a colon not
followed by a space — is label-only, its map key being the whole text
(parent-prefixed when nested) with no detailed or simplified value. -/
theorem c9_label_only (fname : Line) (doc : List Line) (p : MDParse)
    (h : parse_md_metadata fname doc = .ok p) :
    ∀ it ∈ p.metadata, labelOnlyOk it := by
  obtain ⟨l0, l1, s0, rest, b, rest2, f, rest3, hm, h0, h1, hs, hdrop, hb, hr2, hf, hloop⟩ :=
    parse_ok_cases fname doc p h
  exact listLoop_items fname labelOnlyOk
    (fun idx l root ind it hb2 =>
      ⟨(buildItem_ok fname idx l root ind it hb2).2.2.2.1,
       (buildItem_ok fname idx l root ind it hb2).2.2.2.2⟩)
    _ _ _ _ hloop (fun it hit => absurd hit (List.not_mem_nil it))

/-- Witness for C9 at a document whose metadata line reads `* Note:x`. -/
theorem c9_label_only_witness :
    ∃ p, parse_md_metadata "f.md".data c9doc = .ok p ∧ ∀ it ∈ p.metadata, labelOnlyOk it :=
  ⟨_, rfl, c9_label_only "f.md".data c9doc _ rfl⟩

theorem parse_ok_spec (fname : Line) (doc : List Line) (p : MDParse)
    (h : parse_md_metadata fname doc = .ok p) :
    ∃ s k, 1 ≤ k ∧
      p.metadata.map MDItem.line_no = List.range' (s + 1) k ∧
      s + k ≤ doc.length ∧
      (∀ i, i < s → isListLineAt doc i = false) ∧
      (∀ i, s ≤ i → i < s + k → isListLineAt doc i = true) := by
  obtain ⟨l0, l1, s0, rest, b, rest2, f, rest3, hm, h0, h1, hs, hdrop, hb, hr2, hf, hloop⟩ :=
    parse_ok_cases fname doc p h
  obtain ⟨k, hk, ht, hsu, ⟨its, hmeta, hlen, hnos⟩, hlines, hstop⟩ :=
    listLoop_spec fname rest2 (3 + (summaryLoop (s0 :: rest)).2) _ p hloop
  have hmget : ∀ (i : Nat),
      (mdLines doc).get? (3 + (summaryLoop (s0 :: rest)).2 + i) = rest2.get? i := by
    intro i
    rw [hm]
    have e0 : 3 + (summaryLoop (s0 :: rest)).2 + i = (1 + (summaryLoop (s0 :: rest)).2 + i) + 2 := by
      omega
    rw [e0]
    show (s0 :: rest).get? (1 + (summaryLoop (s0 :: rest)).2 + i) = rest2.get? i
    have e2 : ((s0 :: rest).drop (summaryLoop (s0 :: rest)).2).get? (1 + i) =
        (s0 :: rest).get? (1 + (summaryLoop (s0 :: rest)).2 + i) := by
      rw [List.get?_drop]
      congr 1
      omega
    rw [← e2, hdrop]
    have e3 : 1 + i = i + 1 := by omega
    rw [e3]
    rfl
  have hk1 : 1 ≤ k := by
    by_contra hc
    have hk0 : k = 0 := by omega
    subst hk0
    rcases hstop with h' | h'
    · rw [hr2] at h'
      simp at h'
    · rw [hr2] at h'
      simp at h'
      rw [h'] at hf
      exact absurd hf (by decide)
  refine ⟨3 + (summaryLoop (s0 :: rest)).2, k, hk1, ?_, ?_, ?_, ?_⟩
  · rw [hmeta]
    simpa using hnos
  · obtain ⟨l, hg, hne, hsw⟩ := hlines (k - 1) (by omega)
    have hmg := hmget (k - 1)
    rw [hg] at hmg
    have := (isListLineAt_of_block doc (3 + (summaryLoop (s0 :: rest)).2 + (k - 1)) l hmg
      hne hsw).2
    omega
  · intro i hi
    rcases Nat.lt_or_ge i 2 with h2 | h2
    · interval_cases i
      · have hg : (mdLines doc).get? 0 = some l0 := by rw [hm]; rfl
        exact isListLineAt_false_of_not_star doc 0 l0 hg (not_star_of_hash l0 h0)
      · have hg : (mdLines doc).get? 1 = some l1 := by rw [hm]; rfl
        refine isListLineAt_false_of_not_star doc 1 l1 hg ?_
        rw [h1]
        decide
    · rcases Nat.lt_or_ge i (2 + (summaryLoop (s0 :: rest)).2) with h3 | h3
      · obtain ⟨l, hg, hne, hnsw⟩ := summaryLoop_spec (s0 :: rest) (i - 2) (by omega)
        have hgm : (mdLines doc).get? i = some l := by
          rw [hm]
          have e1 : i = (i - 2) + 2 := by omega
          rw [e1]
          show (s0 :: rest).get? (i - 2) = some l
          exact hg
        refine isListLineAt_false_of_not_star doc i l hgm ?_
        cases hb2 : startsWithL "* ".data (stripL l)
        · rfl
        · have := startsWith_star_of_starSpace _ hb2
          rw [hnsw] at this
          cases this
      · have hieq : i = 2 + (summaryLoop (s0 :: rest)).2 := by omega
        subst hieq
        have hgm : (mdLines doc).get? (2 + (summaryLoop (s0 :: rest)).2) = some b := by
          rw [hm]
          have e1 : 2 + (summaryLoop (s0 :: rest)).2 = (summaryLoop (s0 :: rest)).2 + 2 := by
            omega
          rw [e1]
          show (s0 :: rest).get? (summaryLoop (s0 :: rest)).2 = some b
          have e2 : ((s0 :: rest).drop (summaryLoop (s0 :: rest)).2).get? 0 =
              (s0 :: rest).get? (summaryLoop (s0 :: rest)).2 := by
            rw [List.get?_drop, Nat.add_zero]
          rw [← e2, hdrop]
          rfl
        refine isListLineAt_false_of_not_star doc (2 + (summaryLoop (s0 :: rest)).2) b hgm ?_
        rw [hb]
        decide
  · intro i hge hlt
    obtain ⟨l, hg, hne, hsw⟩ := hlines (i - (3 + (summaryLoop (s0 :: rest)).2)) (by omega)
    have hmg := hmget (i - (3 + (summaryLoop (s0 :: rest)).2))
    rw [hg] at hmg
    have he : 3 + (summaryLoop (s0 :: rest)).2 + (i - (3 + (summaryLoop (s0 :: rest)).2)) = i := by
      omega
    rw [he] at hmg
    exact (isListLineAt_of_block doc i l hmg hne hsw).1

theorem blockStart_eq (p : MDParse) (n : Nat) (ns : List Nat)
    (h : p.metadata.map MDItem.line_no = n :: ns) :
    blockStart p = ns.foldl Nat.min n - 1 := by
  unfold blockStart
  rw [h]

theorem blockStop_eq (p : MDParse) (n : Nat) (ns : List Nat)
    (h : p.metadata.map MDItem.line_no = n :: ns) :
    blockStop p = ns.foldl Nat.max n := by
  unfold blockStop
  rw [h]

theorem write_eq (fname : Line) (doc : List Line) (p : MDParse) (width n : Nat)
    (ns : List Nat)
    (hp : parse_md_metadata fname doc = .ok p)
    (hw : lhsWidth p.metadata = .ok width)
    (hmap : p.metadata.map MDItem.line_no = n :: ns) :
    write_md_metadata fname doc =
      (if doc.take (ns.foldl Nat.min n - 1) ++ regenLines width p ++
          doc.drop (ns.foldl Nat.max n) = doc
       then .ok none
       else .ok (some (doc.take (ns.foldl Nat.min n - 1) ++ regenLines width p ++
          doc.drop (ns.foldl Nat.max n)))) := by
  simp only [write_md_metadata, regenLines, hp, hw, hmap]

/-- C7: a successful writer run touches only the parsed metadata block:
everything the writer returns is the original document with just the lines
from blockStart (exclusive prefix kept) up to blockStop (suffix kept)
replaced by the regenerated list; the block's lines are exactly the
document's leading run of metadata-list lines, and the file is left
unwritten precisely when the regenerated block equals the original. -/
theorem c7_writer_frame (fname : Line) (doc : List Line) (res : Option (List Line))
    (h : write_md_metadata fname doc = .ok res) :
    ∃ p width,
      parse_md_metadata fname doc = .ok p ∧
      lhsWidth p.metadata = .ok width ∧
      blockStart p < blockStop p ∧ blockStop p ≤ doc.length ∧
      (∀ i, i < blockStart p → isListLineAt doc i = false) ∧
      (∀ i, blockStart p ≤ i → i < blockStop p → isListLineAt doc i = true) ∧
      (res = none ↔
        doc.take (blockStart p) ++ regenLines width p ++ doc.drop (blockStop p) = doc) ∧
      (∀ nd, res = some nd →
        nd = doc.take (blockStart p) ++ regenLines width p ++ doc.drop (blockStop p)) := by
  unfold write_md_metadata at h
  split at h
  · cases h
  rename_i p hp
  split at h
  · cases h
  rename_i width hw
  dsimp only at h
  split at h
  · cases h
  rename_i n ns hmap
  obtain ⟨s, k, hk1, hnos, hlen, hbefore, hblock⟩ := parse_ok_spec fname doc p hp
  have hkk : k = (k - 1) + 1 := by omega
  have hmap2 : p.metadata.map MDItem.line_no = (s + 1) :: List.range' (s + 1 + 1) (k - 1) := by
    rw [hnos]
    conv_lhs => rw [hkk]
    rw [List.range'_succ]
  rw [hmap2] at hmap
  injection hmap with hn hns
  subst hn
  subst hns
  rw [foldl_min_range_ge (k - 1) (s + 1 + 1) (s + 1) (by omega),
    foldl_max_range_succ (k - 1) (s + 1)] at h
  rw [(show s + 1 - 1 = s by omega), (show s + 1 + (k - 1) = s + k by omega)] at h
  have hstart : blockStart p = s := by
    rw [blockStart_eq p (s + 1) (List.range' (s + 1 + 1) (k - 1)) hmap2,
      foldl_min_range_ge (k - 1) (s + 1 + 1) (s + 1) (by omega)]
    omega
  have hstop : blockStop p = s + k := by
    rw [blockStop_eq p (s + 1) (List.range' (s + 1 + 1) (k - 1)) hmap2,
      foldl_max_range_succ (k - 1) (s + 1)]
    omega
  refine ⟨p, width, hp, hw, ?_, ?_, ?_, ?_, ?_, ?_⟩
  · rw [hstart, hstop]
    omega
  · rw [hstop]
    exact hlen
  · intro i hi
    rw [hstart] at hi
    exact hbefore i hi
  · intro i h1 h2
    rw [hstart] at h1
    rw [hstop] at h2
    exact hblock i h1 h2
  · rw [hstart, hstop]
    unfold regenLines
    by_cases hcond : doc.take s ++ emitForest width []
        (List.insertionSort mdKeyLe (sortForest p.tree)) ++ doc.drop (s + k) = doc
    · rw [if_pos hcond] at h
      cases h
      exact ⟨fun _ => hcond, fun _ => rfl⟩
    · rw [if_neg hcond] at h
      cases h
      constructor
      · intro hc
        cases hc
      · intro hc
        exact absurd hc hcond
  · intro nd hnd
    rw [hstart, hstop]
    unfold regenLines
    by_cases hcond : doc.take s ++ emitForest width []
        (List.insertionSort mdKeyLe (sortForest p.tree)) ++ doc.drop (s + k) = doc
    · rw [if_pos hcond] at h
      cases h
      cases hnd
    · rw [if_neg hcond] at h
      cases h
      injection hnd with h2
      exact h2.symm

/-- Witness for C7 at the concrete unaligned document, which the writer
rewrites to its aligned form. -/
theorem c7_writer_frame_witness :
    ∃ p width,
      parse_md_metadata "f.md".data c1doc = .ok p ∧
      lhsWidth p.metadata = .ok width ∧
      blockStart p < blockStop p ∧ blockStop p ≤ c1doc.length ∧
      (∀ i, i < blockStart p → isListLineAt c1doc i = false) ∧
      (∀ i, blockStart p ≤ i → i < blockStop p → isListLineAt c1doc i = true) ∧
      ((some c1docAligned = none) ↔
        c1doc.take (blockStart p) ++ regenLines width p ++ c1doc.drop (blockStop p) = c1doc) ∧
      (∀ nd, some c1docAligned = some nd →
        nd = c1doc.take (blockStart p) ++ regenLines width p ++ c1doc.drop (blockStop p)) :=
  c7_writer_frame "f.md".data c1doc (some c1docAligned) (by rfl)

/-- C1 amended: the parse-then-write round trip leaves the file unchanged
exactly when the regenerated metadata block coincides with the document's
original block — i.e. when the original list already sits in registry order
with every label padded to the computed column width. -/
theorem c1_roundtrip_aligned (fname : Line) (doc : List Line) (p : MDParse) (width : Nat)
    (hp : parse_md_metadata fname doc = .ok p)
    (hw : lhsWidth p.metadata = .ok width)
    (hreg : regenLines width p =
      (doc.drop (blockStart p)).take (blockStop p - blockStart p)) :
    write_md_metadata fname doc = .ok none := by
  obtain ⟨s, k, hk1, hnos, hlen, h4, h5⟩ := parse_ok_spec fname doc p hp
  have hkk : k = (k - 1) + 1 := by omega
  have hmap2 : p.metadata.map MDItem.line_no = (s + 1) :: List.range' (s + 1 + 1) (k - 1) := by
    rw [hnos]
    conv_lhs => rw [hkk]
    rw [List.range'_succ]
  have hstart : blockStart p = s := by
    rw [blockStart_eq p (s + 1) (List.range' (s + 1 + 1) (k - 1)) hmap2,
      foldl_min_range_ge (k - 1) (s + 1 + 1) (s + 1) (by omega)]
    omega
  have hstop : blockStop p = s + k := by
    rw [blockStop_eq p (s + 1) (List.range' (s + 1 + 1) (k - 1)) hmap2,
      foldl_max_range_succ (k - 1) (s + 1)]
    omega
  rw [write_eq fname doc p width (s + 1) (List.range' (s + 1 + 1) (k - 1)) hp hw hmap2]
  rw [foldl_min_range_ge (k - 1) (s + 1 + 1) (s + 1) (by omega),
    foldl_max_range_succ (k - 1) (s + 1)]
  rw [(show s + 1 - 1 = s by omega), (show s + 1 + (k - 1) = s + k by omega)]
  rw [hreg, hstart, hstop]
  have hdoc : doc.take s ++ (doc.drop s).take (s + k - s) ++ doc.drop (s + k) = doc := by
    have hdd : doc.drop (s + k) = (doc.drop s).drop (s + k - s) := by
      rw [List.drop_drop]
      congr 1
      omega
    rw [List.append_assoc, hdd, List.take_append_drop, List.take_append_drop]
  rw [if_pos hdoc]

/-- Witness for C1's amended theorem: the aligned document round-trips to
`.ok none` (no write). -/
theorem c1_roundtrip_aligned_witness :
    write_md_metadata "f.md".data c1docAligned = .ok none :=
  c1_roundtrip_aligned "f.md".data c1docAligned _ _ rfl rfl rfl

end JsZoo
